import Mathlib

/-!
Verification development for the Jackery BLE protocol core
(`custom_components/private_jack/lib`): a shallow embedding of the
CRC-16 module, the RC4/XOR primitives, the three frame codecs with
auto-detect, the advertisement key derivation, the command builder and
the BLE client's notification/exchange state machine, together with
theorems settling the specification claims.

Modelling conventions:
* Python `bytes` are `List Nat` with every element `< 256` (established
  by lemmas where needed rather than baked into the type).
* Python `str` values are `List Nat` of Unicode code points (`pystr`
  converts a Lean string literal).  All strings reachable in the code
  under scrutiny are ASCII, so the ASCII-only `pyUpper`/`pyLower`
  models of `str.upper()`/`str.lower()` agree with Python on them.
* Fallible Python operations (`bytes.fromhex`, `int(_, 16)`,
  `Crypto.Util.Padding.unpad`, ...) return `Option`; a surrounding
  `try/except` is modelled by the enclosing function returning `none`
  on `none`.
* The AES-128-CBC block cipher comes from the third-party
  `pycryptodome` library, not from this repository; it is modelled as
  an abstract pair of functions `E`/`D` together with the hypotheses
  the library guarantees (`D (E x) = x`, output bytes `< 256`).
-/

set_option maxRecDepth 200000

namespace PrivateJack

/-- Code points of a Lean string literal, used to embed Python `str` values. -/
def pystr (s : String) : List Nat := s.data.map Char.toNat

/-- Python `str.upper()` on one ASCII code point. -/
def pyUpperChar (c : Nat) : Nat := if 97 ≤ c ∧ c ≤ 122 then c - 32 else c

/-- Python `str.upper()` for ASCII strings. -/
def pyUpper (s : List Nat) : List Nat := s.map pyUpperChar

/-- Python `str.lower()` on one ASCII code point. -/
def pyLowerChar (c : Nat) : Nat := if 65 ≤ c ∧ c ≤ 90 then c + 32 else c

/-- Python `str.lower()` for ASCII strings. -/
def pyLower (s : List Nat) : List Nat := s.map pyLowerChar

/-- Value of one hex digit character, accepting both cases (as
Python's `bytes.fromhex` and `int(_, 16)` do). -/
def hexDigitVal (c : Nat) : Option Nat :=
  if 48 ≤ c ∧ c ≤ 57 then some (c - 48)
  else if 97 ≤ c ∧ c ≤ 102 then some (c - 87)
  else if 65 ≤ c ∧ c ≤ 70 then some (c - 55)
  else none

/-- Python `bytes.fromhex`: parse pairs of hex digits; odd length or a
non-hex character raises (`none`). -/
def bytesFromHex : List Nat → Option (List Nat)
  | [] => some []
  | [_] => none
  | c1 :: c2 :: rest =>
    match hexDigitVal c1, hexDigitVal c2, bytesFromHex rest with
    | some h, some l, some bs => some ((16 * h + l) :: bs)
    | _, _, _ => none

/-- Lowercase hex digit character for a value `< 16`. -/
def hexDigitLower (n : Nat) : Nat := if n < 10 then 48 + n else 87 + n

/-- Structurally recursive worker for `natHexDigits`; the fuel only
bounds the recursion depth (one digit per step). -/
def natHexDigitsAux : Nat → Nat → List Nat
  | 0, _ => []
  | fuel + 1, x =>
    if x < 16 then [hexDigitLower x]
    else natHexDigitsAux fuel (x / 16) ++ [hexDigitLower (x % 16)]

/-- Lowercase hex digits of a natural number, most significant first
(`"0"` for zero), as produced by Python's `format(_, 'x')`;
`natHexDigits_eq` below is the defining recurrence. -/
def natHexDigits (x : Nat) : List Nat := natHexDigitsAux (x + 1) x

/-- Python `format(x, '0Nx')`: lowercase hex, left-padded with `'0'` to
width `w`. -/
def pyFormatHexLower (w x : Nat) : List Nat :=
  let d := natHexDigits x
  List.replicate (w - d.length) 48 ++ d

/-- Two lowercase hex characters of one byte, `format(b, '02x')`. -/
def byteToHexLower (b : Nat) : List Nat := pyFormatHexLower 2 b

/-- Python `bytes.hex()`: lowercase hex string of a byte sequence. -/
def bytesToHexLower (bs : List Nat) : List Nat := (bs.map byteToHexLower).flatten

/-- Python `int(s, 16)` accumulator over the digit characters. -/
def parseHexAux : Nat → List Nat → Option Nat
  | acc, [] => some acc
  | acc, c :: rest =>
    match hexDigitVal c with
    | some v => parseHexAux (16 * acc + v) rest
    | none => none

/-- Python `int(s, 16)` restricted to plain hex-digit strings (the only
shape reaching it in this code base); the empty string raises. -/
def parseHex (s : List Nat) : Option Nat :=
  if s.isEmpty then none else parseHexAux 0 s

/-- Python `s[:len(s)-k]`, i.e. the slice `s[:-k]` for `k ≥ 1`. -/
def pyDropLast (s : List Nat) (k : Nat) : List Nat := s.take (s.length - k)

/-- Python `s[len(s)-k:]`, i.e. the slice `s[-k:]` for `k ≥ 1`. -/
def pyTakeLast (s : List Nat) (k : Nat) : List Nat := s.drop (s.length - k)

/-! ## CRC-16 (`lib/crc.py`) -/

/-- One bit step of the MODBUS CRC-16 update (poly `0xA001`). -/
def crcBit (crc : Nat) : Nat :=
  if crc &&& 1 = 1 then (crc >>> 1) ^^^ 0xA001 else crc >>> 1

/-- One byte step of the CRC-16 update. -/
def crcByte (crc b : Nat) : Nat :=
  crcBit (crcBit (crcBit (crcBit (crcBit (crcBit (crcBit (crcBit (crc ^^^ (b &&& 0xFF)))))))))

/-- `crc16_bytes`: CRC-16 of a byte sequence, formatted as 4 uppercase
hex digits with the two bytes swapped (low byte first). -/
def crc16_bytes (data : List Nat) : List Nat :=
  let crc := data.foldl crcByte 0xFFFF
  let hex_crc := pyUpper (pyFormatHexLower 4 crc)
  ((hex_crc.drop 2).take 2) ++ hex_crc.take 2

/-- `crc16`: CRC-16 of a hex string; spaces are stripped, an odd length
yields `"0000"`, a non-hex character raises (`none`). -/
def crc16 (hex_string : List Nat) : Option (List Nat) :=
  let s := hex_string.filter (· ≠ 32)
  if s.length % 2 ≠ 0 then some (pystr "0000")
  else (bytesFromHex s).map crc16_bytes

/-! ## RC4 and XOR primitives (`lib/crypto.py`, `lib/key_derivation.py`) -/

/-- Swap the entries at positions `i` and `j` of a list
(`S[i], S[j] = S[j], S[i]`). -/
def listSwap (S : List Nat) (i j : Nat) : List Nat :=
  let si := S.getD i 0
  let sj := S.getD j 0
  (S.set i sj).set j si

/-- RC4 key schedule.  Python raises `ZeroDivisionError` on an empty
key; the model is total (`i % 0 = i`, default entry `0`) and every
theorem about it assumes a nonempty key. -/
def ksaStep (key : List Nat) (Sj : List Nat × Nat) (i : Nat) : List Nat × Nat :=
  let S := Sj.1
  let j := (Sj.2 + S.getD i 0 + key.getD (i % key.length) 0) &&& 255
  (listSwap S i j, j)

def ksa (key : List Nat) : List Nat :=
  ((List.range 256).foldl (ksaStep key) (List.range 256, 0)).1

/-- RC4 pseudo-random generation: XOR each data byte with the next
keystream byte, threading the `(S, i, j)` state. -/
def prga (S : List Nat) (i j : Nat) : List Nat → List Nat
  | [] => []
  | b :: rest =>
    let i' := (i + 1) &&& 255
    let j' := (j + S.getD i' 0) &&& 255
    let S' := listSwap S i' j'
    let ks := S'.getD ((S'.getD i' 0 + S'.getD j' 0) &&& 255) 0
    (b ^^^ ks) :: prga S' i' j' rest

/-- `rc4_crypt`: symmetric RC4 encryption/decryption. -/
def rc4_crypt (data key : List Nat) : List Nat := prga (ksa key) 0 0 data

/-- `xor_with_byte`: XOR each byte with one byte and return the
lowercase hex string. -/
def xor_with_byte (data : List Nat) (xor_byte : Nat) : List Nat :=
  (data.map (fun b => byteToHexLower ((b &&& 255) ^^^ xor_byte))).flatten

/-- `xor_decode_hex`: XOR-decode a hex string with a key byte given in
hex. -/
def xor_decode_hex (hex_str xor_key_hex : List Nat) : Option (List Nat) :=
  match parseHex xor_key_hex, bytesFromHex hex_str with
  | some xor_key, some data => some (xor_with_byte data xor_key)
  | _, _ => none

/-! ## PKCS#7 padding (`Crypto.Util.Padding`, third-party, modelled) -/

/-- PKCS#7 pad to the 16-byte AES block size, as `pad(_, AES.block_size)`. -/
def pad16 (bs : List Nat) : List Nat :=
  let k := 16 - bs.length % 16
  bs ++ List.replicate k k

/-- PKCS#7 unpad for the 16-byte block size, as `unpad(_, AES.block_size)`;
invalid padding raises (`none`). -/
def unpad16 (bs : List Nat) : Option (List Nat) :=
  if bs.length = 0 then none
  else if bs.length % 16 ≠ 0 then none
  else
    let k := bs.getD (bs.length - 1) 0
    if k < 1 ∨ 16 < k then none
    else if pyTakeLast bs k ≠ List.replicate k k then none
    else some (pyDropLast bs k)

/-! ## AES frame codec (`JackeryEncryption` and subclasses)

The per-message AES-128-CBC transform produced by `_get_cipher` is the
abstract parameter `E` (encrypt) / `D` (decrypt); the key/IV handling
of `__init__` is modelled separately by `jackeryKeyIv` below.
`RANDOM_SUFFIX_BYTES` is `sb` (2 for `BoxEncryption`, 1 for
`PortableAESEncryption`), `MAGIC_PREFIX` is `magic` (`"DFED"` resp.
`"DFEC"`).  The random draw of `encrypt` is the explicit `mask`
argument (`randint(1, 65535)` when `sb = 2`, else `randint(1, 255)`). -/

/-- `JackeryEncryption.encrypt`: append the random suffix and CRC,
convert to bytes, PKCS#7-pad, encrypt, return the uppercase hex. -/
def jackery_encrypt (E : List Nat → List Nat) (sb : Nat) (data : List Nat)
    (mask : Nat) : Option (List Nat) :=
  let random_suffix := if sb = 2 then pyFormatHexLower 4 mask else pyFormatHexLower 2 mask
  let data_with_suffix := data ++ random_suffix
  match crc16 data_with_suffix with
  | none => none
  | some crc =>
    match bytesFromHex (data_with_suffix ++ crc) with
    | none => none
    | some plaintext => some (pyUpper (bytesToHexLower (E (pad16 plaintext))))

/-- `JackeryEncryption.decrypt`: decrypt, unpad, check minimum length,
magic prefix and CRC trailer, return the payload between the magic and
the random suffix; any failure yields `none` (the `try/except`). -/
def jackery_decrypt (D : List Nat → List Nat) (magic : List Nat) (sb : Nat)
    (encrypted_data : List Nat) : Option (List Nat) :=
  match unpad16 (D encrypted_data) with
  | none => none
  | some decrypted =>
    let hex_str := pyUpper (bytesToHexLower decrypted)
    let min_length := if sb = 2 then 36 else 16
    if hex_str.length < min_length then none
    else if pyUpper (hex_str.take 4) ≠ magic then none
    else
      let data_for_crc := pyDropLast hex_str 4
      let expected_crc := pyTakeLast hex_str 4
      match crc16 data_for_crc with
      | none => none
      | some calculated_crc =>
        if pyUpper calculated_crc ≠ pyUpper expected_crc then none
        else
          let suffix_chars := sb * 2
          some ((hex_str.take (hex_str.length - (suffix_chars + 4))).drop 4)

/-! ## RC4 frame codec (`PortableRC4Encryption`) -/

/-- `PortableRC4Encryption.encrypt`: XOR-mask the plaintext bytes with
the random `security_byte`, append its hex and the CRC, RC4 the whole
hex string's bytes, return the uppercase hex. -/
def rc4_encrypt (key_bytes data : List Nat) (security_byte : Nat) : Option (List Nat) :=
  let security_hex := pyFormatHexLower 2 security_byte
  match bytesFromHex data with
  | none => none
  | some data_bytes =>
    let xor_data := xor_with_byte data_bytes security_byte
    match crc16 (xor_data ++ security_hex) with
    | none => none
    | some crc =>
      match bytesFromHex (xor_data ++ security_hex ++ crc) with
      | none => none
      | some plaintext_bytes =>
        some (pyUpper (bytesToHexLower (rc4_crypt plaintext_bytes key_bytes)))

/-- `PortableRC4Encryption.decrypt`: RC4, check minimum length and the
CRC trailer, XOR-demask with the security byte found before the CRC,
require the `"DFEC"` magic, return the uppercased payload after it;
any failure yields `none` (the `try/except`). -/
def rc4_decrypt (key_bytes encrypted_data : List Nat) : Option (List Nat) :=
  let decrypted := rc4_crypt encrypted_data key_bytes
  let hex_str := pyUpper (bytesToHexLower decrypted)
  if hex_str.length < 16 then none
  else
    let data_without_crc := pyDropLast hex_str 4
    let expected_crc := pyTakeLast hex_str 4
    match crc16 data_without_crc with
    | none => none
    | some calculated_crc =>
      if pyUpper calculated_crc ≠ pyUpper expected_crc then none
      else
        let xor_key_hex := pyTakeLast data_without_crc 2
        let xor_data_hex := pyDropLast data_without_crc 2
        match xor_decode_hex xor_data_hex xor_key_hex with
        | none => none
        | some decoded_hex =>
          if ¬ (pystr "DFEC").isPrefixOf (pyUpper decoded_hex) then none
          else some (pyUpper (decoded_hex.drop 4))

/-! ## Key handling of the codec constructors -/

/-- Standard base64 alphabet value of one character. -/
def b64CharVal (c : Nat) : Option Nat :=
  if 65 ≤ c ∧ c ≤ 90 then some (c - 65)
  else if 97 ≤ c ∧ c ≤ 122 then some (c - 71)
  else if 48 ≤ c ∧ c ≤ 57 then some (c + 4)
  else if c = 43 then some 62
  else if c = 47 then some 63
  else none

/-- Standard base64 decoding of well-formed input (groups of four
characters, `'='` padding only at the end), as `base64.b64decode` on
the well-formed keys this code base passes it; malformed input raises
(`none`). -/
def b64decode : List Nat → Option (List Nat)
  | [] => some []
  | c1 :: c2 :: c3 :: c4 :: rest =>
    match b64CharVal c1, b64CharVal c2 with
    | some v1, some v2 =>
      if c3 = 61 ∧ c4 = 61 ∧ rest = [] then some [(v1 <<< 2) + (v2 >>> 4)]
      else
        match b64CharVal c3 with
        | some v3 =>
          if c4 = 61 ∧ rest = [] then
            some [(v1 <<< 2) + (v2 >>> 4), ((v2 % 16) <<< 4) + (v3 >>> 2)]
          else
            match b64CharVal c4, b64decode rest with
            | some v4, some bs =>
              some ([(v1 <<< 2) + (v2 >>> 4), ((v2 % 16) <<< 4) + (v3 >>> 2),
                     ((v3 % 4) <<< 6) + v4] ++ bs)
            | _, _ => none
        | none => none
    | _, _ => none
  | _ => none

/-- Standard base64 character for a 6-bit value. -/
def b64Char (n : Nat) : Nat :=
  if n < 26 then 65 + n
  else if n < 52 then 97 + (n - 26)
  else if n < 62 then 48 + (n - 52)
  else if n = 62 then 43
  else 47

/-- Standard base64 encoding, as `base64.b64encode` followed by the
ASCII `.decode('utf-8')`. -/
def b64encode : List Nat → List Nat
  | [] => []
  | [b1] => [b64Char (b1 >>> 2), b64Char ((b1 % 4) <<< 4), 61, 61]
  | [b1, b2] =>
    [b64Char (b1 >>> 2), b64Char (((b1 % 4) <<< 4) + (b2 >>> 4)),
     b64Char ((b2 % 16) <<< 2), 61]
  | b1 :: b2 :: b3 :: rest =>
    [b64Char (b1 >>> 2), b64Char (((b1 % 4) <<< 4) + (b2 >>> 4)),
     b64Char (((b2 % 16) <<< 2) + (b3 >>> 6)), b64Char (b3 % 64)] ++ b64encode rest

/-- Key decoding shared by both codec constructors: base64 or hex. -/
def keyBytesOf (key : List Nat) (key_is_base64 : Bool) : Option (List Nat) :=
  if key_is_base64 then b64decode key else bytesFromHex key

/-- `JackeryEncryption.__init__`: decode the key, truncate to 16 bytes
or right-pad with zero bytes, and use the result as both key and IV. -/
def jackeryKeyIv (key : List Nat) (key_is_base64 : Bool) : Option (List Nat × List Nat) :=
  (keyBytesOf key key_is_base64).map fun kb =>
    let key_bytes :=
      if 16 < kb.length then kb.take 16
      else if kb.length < 16 then kb ++ List.replicate (16 - kb.length) 0
      else kb
    (key_bytes, key_bytes)

/-- `PortableRC4Encryption.__init__`: decode the key; no length
normalisation is applied. -/
def rc4KeyBytes (key : List Nat) (key_is_base64 : Bool) : Option (List Nat) :=
  keyBytesOf key key_is_base64

/-! ## Handler selection (`get_encryption_handler`, `connect_by_address`) -/

/-- The four codec variants a client can end up with. -/
inductive HandlerKind
  | box
  | aesPortable
  | rc4
  | autoDetect
deriving DecidableEq, Repr

/-- `AES_MODEL_CODES`: portable models using AES. -/
def AES_MODEL_CODES : List Nat := [20, 21]

/-- `get_encryption_handler`: explicit `encryption_type` override (a
falsy or unrecognised string falls through), then `device_type`
`"box"` (case-insensitive), then AES model codes, else RC4. -/
def get_encryption_handler (device_type : List Nat) (model_code : Option Nat)
    (encryption_type : Option (List Nat)) : HandlerKind :=
  let fallback :=
    if pyLower device_type = pystr "box" then HandlerKind.box
    else
      match model_code with
      | some mc => if mc ∈ AES_MODEL_CODES then HandlerKind.aesPortable else HandlerKind.rc4
      | none => HandlerKind.rc4
  match encryption_type with
  | none => fallback
  | some et =>
    if et = [] then fallback
    else if et = pystr "aes_box" then HandlerKind.box
    else if et = pystr "aes_portable" then HandlerKind.aesPortable
    else if et = pystr "rc4" then HandlerKind.rc4
    else fallback

/-- Codec selection inside `JackeryBleClient.connect_by_address`: with
a (truthy) key, `device_type == "box"` picks Box-AES, model code 20/21
picks Portable-AES, any other known model code picks RC4, and an
unknown model code picks auto-detect; without a key no codec is
installed (`none`). -/
def connect_by_address_handler (encryption_key : Option (List Nat))
    (device_type : List Nat) (model_code : Option Nat) : Option HandlerKind :=
  match encryption_key with
  | none => none
  | some k =>
    if k = [] then none
    else some (
      if device_type = pystr "box" then HandlerKind.box
      else
        match model_code with
        | some mc => if mc = 20 ∨ mc = 21 then HandlerKind.aesPortable else HandlerKind.rc4
        | none => HandlerKind.autoDetect)

/-! ## Auto-detect decryption (`AutoDetectEncryption.decrypt`)

A handler is a pair of its `EncryptionType` string and its (total)
decrypt function; the latch `_detected_type`/`_detected_handler` is
modelled as the `Option Nat` index of the latched handler in the
`_handlers` list. -/

/-- The `for enc_type, handler in self._handlers` loop of
`AutoDetectEncryption.decrypt`, latching the first handler whose
decrypt returns non-`None` (an exception in a handler is a `continue`;
the modelled handlers are total). -/
def autoTryFrom (ed : List Nat) :
    List (List Nat × (List Nat → Option (List Nat))) → Nat →
    Option (List Nat) × Option Nat
  | [], _ => (none, none)
  | (_, dec) :: rest, i =>
    match dec ed with
    | some result => (some result, some i)
    | none => autoTryFrom ed rest (i + 1)

/-- `AutoDetectEncryption.decrypt`, returning the result together with
the new latch: a latched handler is tried first and its truthy result
returned; otherwise the latch is cleared and every handler is tried in
order. -/
def autoDetectDecrypt (handlers : List (List Nat × (List Nat → Option (List Nat))))
    (detected : Option Nat) (ed : List Nat) : Option (List Nat) × Option Nat :=
  match detected with
  | some i =>
    match handlers.get? i with
    | some (_, dec) =>
      match dec ed with
      | some result =>
        if result ≠ [] then (some result, some i)
        else autoTryFrom ed handlers 0
      | none => autoTryFrom ed handlers 0
    | none => autoTryFrom ed handlers 0
  | none => autoTryFrom ed handlers 0

/-- The `_handlers` list built by `AutoDetectEncryption.__init__` for a
portable device: RC4 first, then Portable-AES (whose CBC transform is
the abstract `D`). -/
def portableHandlers (key_bytes : List Nat) (D : List Nat → List Nat) :
    List (List Nat × (List Nat → Option (List Nat))) :=
  [(pystr "rc4", rc4_decrypt key_bytes),
   (pystr "aes_portable", jackery_decrypt D (pystr "DFEC") 1)]

/-! ## UTF-8 and decimal helpers for the command builder and key derivation -/

/-- UTF-8 encoding of one code point (`str.encode('utf-8')`). -/
def utf8EncodeChar (c : Nat) : List Nat :=
  if c < 0x80 then [c]
  else if c < 0x800 then [0xC0 + c / 64, 0x80 + c % 64]
  else if c < 0x10000 then [0xE0 + c / 4096, 0x80 + (c / 64) % 64, 0x80 + c % 64]
  else [0xF0 + c / 0x40000, 0x80 + (c / 4096) % 64, 0x80 + (c / 64) % 64, 0x80 + c % 64]

/-- UTF-8 encoding of a string (`str.encode('utf-8')`). -/
def utf8Encode (s : List Nat) : List Nat := (s.map utf8EncodeChar).flatten

/-- UTF-8 decoding with `errors='ignore'`: valid sequences decode, an
invalid leading byte is skipped.  (CPython's error ranges on malformed
multi-byte sequences can differ by how many bytes are skipped; every
string reaching this decoder in the claims is plain ASCII, where the
two agree.) -/
def utf8DecodeIgnoreAux : Nat → List Nat → List Nat
  | 0, _ => []
  | _ + 1, [] => []
  | fuel + 1, b :: rest =>
    if b < 0x80 then b :: utf8DecodeIgnoreAux fuel rest
    else if 0xC2 ≤ b ∧ b ≤ 0xDF then
      match rest with
      | b2 :: rest2 =>
        if 0x80 ≤ b2 ∧ b2 ≤ 0xBF then
          (((b &&& 0x1F) <<< 6) ||| (b2 &&& 0x3F)) :: utf8DecodeIgnoreAux fuel rest2
        else utf8DecodeIgnoreAux fuel rest
      | [] => []
    else if 0xE0 ≤ b ∧ b ≤ 0xEF then
      match rest with
      | b2 :: b3 :: rest3 =>
        if (0x80 ≤ b2 ∧ b2 ≤ 0xBF) ∧ (0x80 ≤ b3 ∧ b3 ≤ 0xBF)
            ∧ ¬ (b = 0xE0 ∧ b2 < 0xA0) ∧ ¬ (b = 0xED ∧ 0x9F < b2) then
          (((b &&& 0x0F) <<< 12) ||| ((b2 &&& 0x3F) <<< 6) ||| (b3 &&& 0x3F))
            :: utf8DecodeIgnoreAux fuel rest3
        else utf8DecodeIgnoreAux fuel rest
      | _ => utf8DecodeIgnoreAux fuel rest
    else if 0xF0 ≤ b ∧ b ≤ 0xF4 then
      match rest with
      | b2 :: b3 :: b4 :: rest4 =>
        if (0x80 ≤ b2 ∧ b2 ≤ 0xBF) ∧ (0x80 ≤ b3 ∧ b3 ≤ 0xBF) ∧ (0x80 ≤ b4 ∧ b4 ≤ 0xBF)
            ∧ ¬ (b = 0xF0 ∧ b2 < 0x90) ∧ ¬ (b = 0xF4 ∧ 0x8F < b2) then
          (((b &&& 0x07) <<< 18) ||| ((b2 &&& 0x3F) <<< 12) ||| ((b3 &&& 0x3F) <<< 6)
            ||| (b4 &&& 0x3F)) :: utf8DecodeIgnoreAux fuel rest4
        else utf8DecodeIgnoreAux fuel rest
      | _ => utf8DecodeIgnoreAux fuel rest
    else utf8DecodeIgnoreAux fuel rest

/-- UTF-8 decoding with `errors='ignore'`, entry point: the fuel is the
input length, an upper bound on the number of decoding steps since
every step consumes at least one byte. -/
def utf8DecodeIgnore (l : List Nat) : List Nat := utf8DecodeIgnoreAux l.length l

/-- Structurally recursive worker for `natDecDigits`. -/
def natDecDigitsAux : Nat → Nat → List Nat
  | 0, _ => []
  | fuel + 1, x =>
    if x < 10 then [48 + x]
    else natDecDigitsAux fuel (x / 10) ++ [48 + x % 10]

/-- Decimal digit characters of a natural number, as Python `str(n)`. -/
def natDecDigits (x : Nat) : List Nat := natDecDigitsAux (x + 1) x

/-! ## Command builder (`lib/commands.py`) -/

/-- `json.dumps({k: v}, separators=(',', ':'))` for a single
natural-number field, e.g. `compactJsonIntField "lm" 3 = '\x7b"lm":3\x7d'`. -/
def compactJsonIntField (k : String) (v : Nat) : List Nat :=
  pystr "\x7b\"" ++ pystr k ++ pystr "\":" ++ natDecDigits v ++ pystr "\x7d"

/-- The command magic chosen by `CommandBuilder.__init__`
(`PREFIX_BOX` for `device_type == "box"`, else `PREFIX_PORTABLE`). -/
def commandMagic (device_type : List Nat) : List Nat :=
  if device_type = pystr "box" then pystr "DFED00" else pystr "DFEC00"

/-- `CommandBuilder._to_hex_byte`: `format(value & 0xFF, '02x')`. -/
def to_hex_byte (value : Nat) : List Nat := pyFormatHexLower 2 (value &&& 0xFF)

/-- `CommandBuilder._body_to_hex`: lowercase hex of the UTF-8 body. -/
def body_to_hex (body : List Nat) : List Nat := bytesToHexLower (utf8Encode body)

/-- `CommandBuilder.build_command`: magic, action id byte, message type
byte, body length byte, body hex, uppercased. -/
def build_command (device_type : List Nat) (action_id msg_type : Nat)
    (body : List Nat) : List Nat :=
  let body_hex := if body ≠ [] then body_to_hex body else []
  let body_len := body_hex.length / 2
  pyUpper (commandMagic device_type ++ to_hex_byte action_id ++ to_hex_byte msg_type
    ++ to_hex_byte body_len ++ body_hex)

/-- `CommandBuilder.set_light_mode`: action `LIGHT_MODE = 7`, message
type `SET_CONTROL = 4`, body `{"lm": mode}`. -/
def set_light_mode (device_type : List Nat) (mode : Nat) : List Nat :=
  build_command device_type 7 4 (compactJsonIntField "lm" mode)

/-! ## Notification handling and packet reassembly (`lib/ble_client.py`) -/

/-- The per-client notification/reassembly state: `_packet_buffer`
(an insertion-ordered dict), `_expected_packets`, `_last_response` and
`_response_event`. -/
structure ClientState where
  buffer : List (Nat × List Nat)
  expected : Nat
  lastResponse : Option (List Nat)
  event : Bool
deriving DecidableEq, Repr

/-- Python dict assignment `d[k] = v`: replace in place if the key is
present, else append. -/
def dictInsert (k : Nat) (v : List Nat) (d : List (Nat × List Nat)) :
    List (Nat × List Nat) :=
  if d.any (fun p => p.1 = k) then d.map (fun p => if p.1 = k then (k, v) else p)
  else d ++ [(k, v)]

/-- Python dict lookup `d[k]` guarded by `k in d`. -/
def dictLookup (k : Nat) (d : List (Nat × List Nat)) : Option (List Nat) :=
  (d.find? (fun p => p.1 = k)).map (·.2)

/-- `JackeryBleClient._handle_multi_packet`: parse index and total from
hex offsets `[8:12]` and `[12:16]`, buffer the chunk, and when the
buffer holds at least `total` entries emit the concatenation of the
chunks at indices `1..total` (missing indices are skipped), reset the
buffer, and set the response event; a parse failure leaves the state
unchanged (the `try/except`). -/
def handle_multi_packet (st : ClientState) (decrypted : List Nat) : ClientState :=
  match parseHex ((decrypted.take 12).drop 8), parseHex ((decrypted.take 16).drop 12) with
  | some packet_num, some total_packets =>
    let body := decrypted.drop 16
    let buf := dictInsert packet_num body st.buffer
    if total_packets ≤ buf.length then
      let combined := ((List.range' 1 total_packets).map
        (fun i => (dictLookup i buf).getD [])).flatten
      { buffer := [], expected := 0, lastResponse := some combined, event := true }
    else { st with buffer := buf, expected := total_packets }
  | _, _ => st

/-- `JackeryBleClient._handle_notification`: with a codec, decrypt and
either reassemble (`"80"` payloads) or store the response and set the
event; without a codec, store the raw bytes as lowercase hex and set
the event unconditionally. -/
def handle_notification (enc : Option (List Nat → Option (List Nat)))
    (st : ClientState) (data : List Nat) : ClientState :=
  match enc with
  | some dec =>
    match dec data with
    | some decrypted =>
      if decrypted ≠ [] then
        if (pystr "80").isPrefixOf decrypted then handle_multi_packet st decrypted
        else { st with lastResponse := some decrypted, event := true }
      else st
    | none => st
  | none => { st with lastResponse := some (bytesToHexLower data), event := true }

/-- `JackeryBleClient.send_command` on a connected client with no codec
installed: the command hex becomes the written bytes unmodified, the
notifications arriving during the wait run `_handle_notification`, and
the call returns `_last_response` when the event was set (else the
timeout yields `none`).  Result: `(data written, returned value, final
state)`; `none` is the `ValueError` of `bytes.fromhex`. -/
def send_command_noenc (st : ClientState) (command_hex : List Nat)
    (notifs : List (List Nat)) : Option (List Nat × Option (List Nat) × ClientState) :=
  match bytesFromHex command_hex with
  | none => none
  | some data =>
    let st1 : ClientState := { st with event := false, lastResponse := none }
    let st2 := notifs.foldl (handle_notification none) st1
    some (data, if st2.event then st2.lastResponse else none, st2)

/-! ## Collect-all exchange (`send_command_collect_all`)

The callback slot `_notification_callback` is modelled by
`NotifSlot`; a raised exception is `Except.error` carrying the state
at the raise point (control returns to the caller with exactly those
mutations applied).  The GATT write is the boolean `writeOk`;
notifications arriving inside a collection window are the abstract
values fed to the installed callback. -/

/-- Possible values of the `_notification_callback` slot. -/
inductive NotifSlot
  | noCallback
  | user (n : Nat)
  | collectAll
  | autoProbe
deriving DecidableEq, Repr

/-- The mutable client fields touched by the collect-all exchange. -/
structure CollectState where
  connected : Bool
  callback : NotifSlot
  event : Bool
  lastResponse : Option (List Nat)
  buffer : List (Nat × List Nat)
deriving DecidableEq, Repr

/-- `JackeryBleClient._collect_with_auto_detect`: per candidate codec,
install the probe callback, clear the exchange state, write, wait
2 s collecting `notifs`; a non-empty collection returns it, else the
next candidate is tried.  The caller restores the callback slot;
a failing write raises out of the loop with the probe callback still
installed. -/
def collect_with_auto_detect (st : CollectState) (writeOk : Bool) :
    List (List Nat) → Except Unit (List Nat) × CollectState
  | [] => (Except.ok [], st)
  | notifs :: restAttempts =>
    let st1 : CollectState :=
      { st with callback := NotifSlot.autoProbe, event := false,
                lastResponse := none, buffer := [] }
    if ¬ writeOk then (Except.error (), st1)
    else if notifs ≠ [] then (Except.ok notifs, st1)
    else collect_with_auto_detect st1 writeOk restAttempts

/-- `JackeryBleClient.send_command_collect_all`: save the callback
slot, install the collector, run the exchange (auto-detect probing or
a single write plus collection window), and put the saved callback
back before returning; an exception anywhere in between propagates
without any restore (there is no `try/finally`). -/
def send_command_collect_all (st : CollectState) (writeOk autoUnlatched : Bool)
    (notifsPerAttempt : List (List Nat)) (notifs : List Nat) :
    Except Unit (List Nat) × CollectState :=
  if ¬ st.connected then (Except.error (), st)
  else
    let original_callback := st.callback
    let st1 : CollectState := { st with callback := NotifSlot.collectAll }
    if autoUnlatched then
      match collect_with_auto_detect st1 writeOk notifsPerAttempt with
      | (Except.ok result, st2) => (Except.ok result, { st2 with callback := original_callback })
      | (Except.error e, st2) => (Except.error e, st2)
    else
      let st2 : CollectState :=
        { st1 with event := false, lastResponse := none, buffer := [] }
      if ¬ writeOk then (Except.error (), st2)
      else (Except.ok notifs, { st2 with callback := original_callback })

/-! ## Advertisement key extraction
(`JackeryBleClient._extract_key_from_advertisement`)

The caller iterates `service_data` for the `bdee` service UUID and
passes the matching blob; `manufacturer_data` supplies one
`(manufacturer_id, payload)` entry.  The model starts from those three
inputs and returns `(encryption_key, device_sn, model_code)`. -/

/-- `SALT_RC4` from `lib/key_derivation.py`. -/
def SALT_RC4 : List Nat := pystr "LYx*G!6u9#"

/-- `SALT_KEY` from `lib/key_derivation.py`. -/
def SALT_KEY : List Nat := pystr "6*SY1c5B9@"

/-- The serial-number reconstruction: format the manufacturer id as 4
hex chars, swap the two bytes, ASCII-decode the second swapped byte
(`id_swapped[2:]`), and append the UTF-8 decode of the manufacturer
payload (both decodes use `errors='ignore'` and cannot raise; the
`bytes.fromhex` cannot fail on `format` output, so its `getD` default
is unreachable). -/
def advDeviceSn (manufacturer_id : Nat) (mfr_bytes : List Nat) : List Nat :=
  let id_hex := pyFormatHexLower 4 manufacturer_id
  let id_swapped := (id_hex.take 4).drop 2 ++ id_hex.take 2
  let sn_part1 := utf8DecodeIgnore ((bytesFromHex (id_swapped.drop 2)).getD [])
  let sn_part2 := utf8DecodeIgnore mfr_bytes
  sn_part1 ++ sn_part2

/-- The advertisement RC4 key `sn[0:3] + sn[-5:] + SALT_RC4` (the
source's two branches on `len(device_sn) >= 15` build the same
string). -/
def advRc4Key (device_sn : List Nat) : List Nat :=
  if 15 ≤ device_sn.length then
    utf8Encode (device_sn.take 3 ++ pyTakeLast device_sn 5 ++ SALT_RC4)
  else
    utf8Encode (device_sn.take 3 ++ pyTakeLast device_sn 5 ++ SALT_RC4)

/-- `_extract_key_from_advertisement` after the service blob has been
selected: length checks, SN reconstruction, RC4 decryption of the
first 14 service bytes, the CRC recomputation over `data_for_crc`
whose mismatch only logs (`pass  # CRC failed but continue` — the
result does not depend on it), XOR demasking, and derivation of the
base64 key from `sn[-6:] || device_guid || SALT_KEY`. -/
def extract_key_from_advertisement (manufacturer_id : Nat) (mfr_bytes : List Nat)
    (svc_bytes : List Nat) : Option (List Nat × List Nat × Nat) :=
  if svc_bytes.length < 14 then none
  else
    let device_sn := advDeviceSn manufacturer_id mfr_bytes
    if device_sn.length < 8 then none
    else
      let encrypted_data := svc_bytes.take 14
      let decrypted_hex := pyUpper (bytesToHexLower (rc4_crypt encrypted_data (advRc4Key device_sn)))
      if decrypted_hex.length < 8 then none
      else
        let data_for_crc := pyDropLast decrypted_hex 4
        if data_for_crc.length < 4 then none
        else
          let payload_hex := pyDropLast data_for_crc 2
          let xor_key_hex := pyTakeLast data_for_crc 2
          match parseHex xor_key_hex, bytesFromHex payload_hex with
          | some xor_key, some payload_bytes =>
            let decoded := xor_with_byte payload_bytes xor_key
            if 22 ≤ decoded.length then
              match parseHex (decoded.take 4), bytesFromHex ((decoded.take 16).drop 4) with
              | some model_code, some device_guid =>
                let sn_suffix :=
                  if 6 ≤ device_sn.length then pyTakeLast device_sn 6 else device_sn
                let key_material := utf8Encode sn_suffix ++ device_guid ++ utf8Encode SALT_KEY
                some (b64encode key_material, device_sn, model_code)
              | _, _ => none
            else none
          | _, _ => none

/-! ## Character-level lemmas -/

theorem hexDigitVal_lt {c v : Nat} (h : hexDigitVal c = some v) : v < 16 := by
  unfold hexDigitVal at h
  split_ifs at h <;> simp_all <;> omega

theorem hexDigitVal_ne_space {c v : Nat} (h : hexDigitVal c = some v) : c ≠ 32 := by
  unfold hexDigitVal at h
  split_ifs at h <;> simp_all <;> omega

theorem hexDigitVal_pyUpperChar (c : Nat) : hexDigitVal (pyUpperChar c) = hexDigitVal c := by
  unfold hexDigitVal pyUpperChar
  split_ifs <;> first | rfl | omega

theorem hexDigitVal_hexDigitLower : ∀ n < 16, hexDigitVal (hexDigitLower n) = some n := by
  decide

theorem hexDigitLower_of_hexDigitVal {c v : Nat} (h : hexDigitVal c = some v) :
    hexDigitLower v = pyLowerChar c := by
  unfold hexDigitVal at h
  unfold hexDigitLower pyLowerChar
  split_ifs at h ⊢ <;> simp_all <;> omega

theorem pyUpperChar_pyLowerChar (c : Nat) : pyUpperChar (pyLowerChar c) = pyUpperChar c := by
  unfold pyUpperChar pyLowerChar
  split_ifs <;> omega

theorem pyUpperChar_pyUpperChar (c : Nat) : pyUpperChar (pyUpperChar c) = pyUpperChar c := by
  unfold pyUpperChar
  split_ifs <;> omega

theorem pyUpperChar_eq_space_iff (c : Nat) : pyUpperChar c = 32 ↔ c = 32 := by
  unfold pyUpperChar
  split_ifs <;> omega

theorem pyUpper_pyLower (s : List Nat) : pyUpper (pyLower s) = pyUpper s := by
  simp [pyUpper, pyLower, List.map_map, Function.comp_def, pyUpperChar_pyLowerChar]

theorem pyUpper_pyUpper (s : List Nat) : pyUpper (pyUpper s) = pyUpper s := by
  simp [pyUpper, List.map_map, Function.comp_def, pyUpperChar_pyUpperChar]

/-! ## Hex-string lemmas -/

theorem natHexDigitsAux_congr (x : Nat) : ∀ f g, x < f → x < g →
    natHexDigitsAux f x = natHexDigitsAux g x := by
  induction x using Nat.strong_induction_on with
  | _ x ih =>
    intro f g hf hg
    obtain ⟨f', rfl⟩ : ∃ f', f = f' + 1 := ⟨f - 1, by omega⟩
    obtain ⟨g', rfl⟩ : ∃ g', g = g' + 1 := ⟨g - 1, by omega⟩
    simp only [natHexDigitsAux]
    by_cases h : x < 16
    · rw [if_pos h, if_pos h]
    · rw [if_neg h, if_neg h]
      have hdiv : x / 16 < x := Nat.div_lt_self (by omega) (by omega)
      congr 1
      exact ih (x / 16) hdiv f' g' (by omega) (by omega)

theorem natHexDigits_eq (x : Nat) : natHexDigits x =
    if x < 16 then [hexDigitLower x]
    else natHexDigits (x / 16) ++ [hexDigitLower (x % 16)] := by
  show natHexDigitsAux (x + 1) x = _
  rw [show natHexDigitsAux (x + 1) x
    = if x < 16 then [hexDigitLower x]
      else natHexDigitsAux x (x / 16) ++ [hexDigitLower (x % 16)] from rfl]
  by_cases h : x < 16
  · rw [if_pos h, if_pos h]
  · rw [if_neg h, if_neg h]
    have hdiv : x / 16 < x := Nat.div_lt_self (by omega) (by omega)
    congr 1
    exact natHexDigitsAux_congr (x / 16) x (x / 16 + 1) (by omega) (by omega)

theorem natHexDigits_two (b : Nat) (hb : b < 256) :
    natHexDigits b = if b < 16 then [hexDigitLower b]
      else [hexDigitLower (b / 16), hexDigitLower (b % 16)] := by
  by_cases h : b < 16
  · rw [natHexDigits_eq, if_pos h, if_pos h]
  · rw [natHexDigits_eq, if_neg h, if_neg h]
    rw [natHexDigits_eq, if_pos (by omega : b / 16 < 16)]
    rfl

theorem byteToHexLower_eq (b : Nat) (hb : b < 256) :
    byteToHexLower b = [hexDigitLower (b / 16), hexDigitLower (b % 16)] := by
  unfold byteToHexLower pyFormatHexLower
  rw [natHexDigits_two b hb]
  by_cases h : b < 16
  · rw [if_pos h]
    rw [show b / 16 = 0 by omega, show b % 16 = b by omega]
    rfl
  · rw [if_neg h]
    rfl

theorem bytesFromHex_pyUpper : ∀ s, bytesFromHex (pyUpper s) = bytesFromHex s
  | [] => rfl
  | [_] => rfl
  | c1 :: c2 :: t => by
    have ih := bytesFromHex_pyUpper t
    show bytesFromHex (pyUpperChar c1 :: pyUpperChar c2 :: pyUpper t)
      = bytesFromHex (c1 :: c2 :: t)
    simp only [bytesFromHex, hexDigitVal_pyUpperChar, ih]

theorem bytesFromHex_append : ∀ s t, s.length % 2 = 0 →
    bytesFromHex (s ++ t) = (bytesFromHex s).bind fun a => (bytesFromHex t).map (a ++ ·)
  | [], t, _ => by cases h : bytesFromHex t <;> simp [bytesFromHex, h]
  | [_], _, h => by simp at h
  | c1 :: c2 :: s', t, h => by
    have h' : s'.length % 2 = 0 := by
      simp only [List.length_cons] at h
      omega
    have ih := bytesFromHex_append s' t h'
    show bytesFromHex (c1 :: c2 :: (s' ++ t)) = _
    simp only [bytesFromHex, ih]
    cases hexDigitVal c1 <;> cases hexDigitVal c2 <;>
      cases bytesFromHex s' <;> cases bytesFromHex t <;> simp

theorem bytesFromHex_bytesToHexLower : ∀ bs, (∀ b ∈ bs, b < 256) →
    bytesFromHex (bytesToHexLower bs) = some bs
  | [], _ => rfl
  | b :: bs, h => by
    have hb : b < 256 := h b (by simp)
    have ih := bytesFromHex_bytesToHexLower bs (fun x hx => h x (by simp [hx]))
    show bytesFromHex (byteToHexLower b ++ bytesToHexLower bs) = _
    rw [byteToHexLower_eq b hb]
    show bytesFromHex (_ :: _ :: bytesToHexLower bs) = _
    simp only [bytesFromHex, ih,
      hexDigitVal_hexDigitLower _ (by omega : b / 16 < 16),
      hexDigitVal_hexDigitLower _ (by omega : b % 16 < 16)]
    rw [show 16 * (b / 16) + b % 16 = b by omega]

theorem bytesFromHex_length : ∀ {s bs}, bytesFromHex s = some bs → s.length = 2 * bs.length
  | [], bs, h => by
    have : bs = [] := by simpa [bytesFromHex] using h.symm
    subst this
    rfl
  | [_], _, h => by simp [bytesFromHex] at h
  | c1 :: c2 :: t, bs, h => by
    simp only [bytesFromHex] at h
    cases h1 : hexDigitVal c1 <;> cases h2 : hexDigitVal c2 <;> simp [h1, h2] at h
    cases h3 : bytesFromHex t <;> simp [h3] at h
    have := bytesFromHex_length h3
    subst h
    simp [List.length_cons]
    omega

theorem bytesFromHex_lt : ∀ {s bs}, bytesFromHex s = some bs → ∀ b ∈ bs, b < 256
  | [], bs, h => by
    have : bs = [] := by simpa [bytesFromHex] using h.symm
    subst this
    simp
  | [_], _, h => by simp [bytesFromHex] at h
  | c1 :: c2 :: t, bs, h => by
    simp only [bytesFromHex] at h
    cases h1 : hexDigitVal c1 <;> cases h2 : hexDigitVal c2 <;> simp [h1, h2] at h
    cases h3 : bytesFromHex t <;> simp [h3] at h
    intro b hb
    rw [← h] at hb
    rcases List.mem_cons.mp hb with hb | hb
    · have := hexDigitVal_lt h1
      have := hexDigitVal_lt h2
      omega
    · exact bytesFromHex_lt h3 b hb

theorem bytesFromHex_isHex : ∀ {s bs}, bytesFromHex s = some bs →
    ∀ c ∈ s, ∃ v, hexDigitVal c = some v
  | [], _, _ => by simp
  | [_], _, h => by simp [bytesFromHex] at h
  | c1 :: c2 :: t, bs, h => by
    simp only [bytesFromHex] at h
    cases h1 : hexDigitVal c1 <;> cases h2 : hexDigitVal c2 <;> simp [h1, h2] at h
    cases h3 : bytesFromHex t <;> simp [h3] at h
    intro c hc
    rcases List.mem_cons.mp hc with hc | hc
    · exact ⟨_, hc ▸ h1⟩
    · rcases List.mem_cons.mp hc with hc | hc
      · exact ⟨_, hc ▸ h2⟩
      · exact bytesFromHex_isHex h3 c hc

theorem bytesToHexLower_eq_pyLower : ∀ {s bs}, bytesFromHex s = some bs →
    bytesToHexLower bs = pyLower s
  | [], bs, h => by
    have : bs = [] := by simpa [bytesFromHex] using h.symm
    subst this
    rfl
  | [_], _, h => by simp [bytesFromHex] at h
  | c1 :: c2 :: t, bs, h => by
    simp only [bytesFromHex] at h
    cases h1 : hexDigitVal c1 <;> cases h2 : hexDigitVal c2 <;> simp [h1, h2] at h
    cases h3 : bytesFromHex t <;> simp [h3] at h
    rename_i v1 v2 bs'
    have hlt1 := hexDigitVal_lt h1
    have hlt2 := hexDigitVal_lt h2
    have ih := bytesToHexLower_eq_pyLower h3
    subst h
    show byteToHexLower (16 * v1 + v2) ++ bytesToHexLower bs'
      = pyLowerChar c1 :: pyLowerChar c2 :: pyLower t
    rw [byteToHexLower_eq _ (by omega), ih]
    rw [show (16 * v1 + v2) / 16 = v1 by omega, show (16 * v1 + v2) % 16 = v2 by omega]
    rw [hexDigitLower_of_hexDigitVal h1, hexDigitLower_of_hexDigitVal h2]
    rfl

theorem bytesToHexLower_length (bs : List Nat) (h : ∀ b ∈ bs, b < 256) :
    (bytesToHexLower bs).length = 2 * bs.length := by
  induction bs with
  | nil => rfl
  | cons b bs ih =>
    have hrest := ih (fun x hx => h x (by simp [hx]))
    show (byteToHexLower b ++ bytesToHexLower bs).length = _
    rw [byteToHexLower_eq b (h b (by simp))]
    simp [hrest]
    omega

/-! ## parseHex and formatting lemmas -/

theorem parseHexAux_pyUpper (s : List Nat) : ∀ acc,
    parseHexAux acc (pyUpper s) = parseHexAux acc s := by
  induction s with
  | nil => intro acc; rfl
  | cons c t ih =>
    intro acc
    show parseHexAux acc (pyUpperChar c :: pyUpper t) = _
    simp only [parseHexAux, hexDigitVal_pyUpperChar]
    cases hexDigitVal c <;> simp [ih]

theorem pyUpper_length (s : List Nat) : (pyUpper s).length = s.length :=
  List.length_map _ _

theorem pyUpper_append (s t : List Nat) : pyUpper (s ++ t) = pyUpper s ++ pyUpper t :=
  List.map_append _ _ _

theorem pyUpper_take (n : Nat) (s : List Nat) : pyUpper (s.take n) = (pyUpper s).take n :=
  List.map_take _ _ _

theorem pyUpper_drop (n : Nat) (s : List Nat) : pyUpper (s.drop n) = (pyUpper s).drop n :=
  List.map_drop _ _ _

theorem parseHex_pyUpper (s : List Nat) : parseHex (pyUpper s) = parseHex s := by
  cases s with
  | nil => rfl
  | cons c t =>
    show parseHexAux 0 (pyUpper (c :: t)) = parseHexAux 0 (c :: t)
    exact parseHexAux_pyUpper (c :: t) 0

theorem parseHex_two (h l : Nat) (hh : h < 16) (hl : l < 16) :
    parseHex [hexDigitLower h, hexDigitLower l] = some (16 * h + l) := by
  unfold parseHex
  simp only [List.isEmpty_cons, parseHexAux,
    hexDigitVal_hexDigitLower h hh, hexDigitVal_hexDigitLower l hl]
  norm_num

theorem parseHex_byteToHexLower (b : Nat) (hb : b < 256) :
    parseHex (byteToHexLower b) = some b := by
  rw [byteToHexLower_eq b hb, parseHex_two _ _ (by omega) (by omega)]
  congr 1
  omega

theorem natHexDigits_isHex (x : Nat) : ∀ c ∈ natHexDigits x, ∃ v, v < 16 ∧ c = hexDigitLower v := by
  induction x using Nat.strong_induction_on with
  | _ x ih =>
    rw [natHexDigits_eq]
    split
    · intro c hc
      simp at hc
      exact ⟨x, by omega, hc⟩
    · intro c hc
      rcases List.mem_append.mp hc with hc | hc
      · exact ih (x / 16) (Nat.div_lt_self (by omega) (by omega)) c hc
      · simp at hc
        exact ⟨x % 16, by omega, hc⟩

theorem natHexDigits_len_le : ∀ k x, x < 16 ^ k → 1 ≤ k → (natHexDigits x).length ≤ k
  | 0, _, _, hk => by omega
  | 1, x, hx, _ => by
    rw [natHexDigits_eq, if_pos (by simpa using hx)]
    simp
  | k + 2, x, hx, _ => by
    rw [natHexDigits_eq]
    split
    · simp
    · have := natHexDigits_len_le (k + 1) (x / 16)
        (by
          have : x < 16 ^ (k + 2) := hx
          rw [pow_succ] at this
          omega)
        (by omega)
      simp only [List.length_append, List.length_cons, List.length_nil]
      omega

theorem pyFormatHexLower_length (w x : Nat) (h : (natHexDigits x).length ≤ w) :
    (pyFormatHexLower w x).length = w := by
  unfold pyFormatHexLower
  simp
  omega

theorem pyFormat4_eq (c : Nat) (hc : c < 65536) :
    pyFormatHexLower 4 c = [hexDigitLower (c / 4096), hexDigitLower (c / 256 % 16),
      hexDigitLower (c / 16 % 16), hexDigitLower (c % 16)] := by
  unfold pyFormatHexLower
  by_cases h1 : c < 16
  · rw [natHexDigits_eq, if_pos h1]
    rw [show c / 4096 = 0 by omega, show c / 256 % 16 = 0 by omega,
      show c / 16 % 16 = 0 by omega, show c % 16 = c by omega]
    rfl
  · by_cases h2 : c < 256
    · rw [natHexDigits_eq, if_neg h1, natHexDigits_eq, if_pos (by omega : c / 16 < 16)]
      rw [show c / 4096 = 0 by omega, show c / 256 % 16 = 0 by omega,
        show c / 16 % 16 = c / 16 by omega]
      rfl
    · by_cases h3 : c < 4096
      · rw [natHexDigits_eq, if_neg h1, natHexDigits_eq, if_neg (by omega : ¬ c / 16 < 16),
          natHexDigits_eq, if_pos (by omega : c / 16 / 16 < 16)]
        rw [show c / 16 / 16 = c / 256 by omega, show c / 4096 = 0 by omega,
          show c / 256 % 16 = c / 256 by omega]
        rfl
      · rw [natHexDigits_eq, if_neg h1, natHexDigits_eq, if_neg (by omega : ¬ c / 16 < 16),
          natHexDigits_eq, if_neg (by omega : ¬ c / 16 / 16 < 16),
          natHexDigits_eq, if_pos (by omega : c / 16 / 16 / 16 < 16)]
        rw [show c / 16 / 16 / 16 = c / 4096 by omega,
          show c / 16 / 16 % 16 = c / 256 % 16 by omega]
        rfl

/-! ## CRC-16 lemmas -/

theorem crcBit_lt {crc : Nat} (h : crc < 65536) : crcBit crc < 65536 := by
  unfold crcBit
  split
  · have h1 : crc >>> 1 < 2 ^ 16 := by
      simp [Nat.shiftRight_eq_div_pow]
      omega
    have h2 : (0xA001 : Nat) < 2 ^ 16 := by norm_num
    simpa using Nat.xor_lt_two_pow h1 h2
  · simp [Nat.shiftRight_eq_div_pow]
    omega

theorem crcByte_lt {crc : Nat} (b : Nat) (h : crc < 65536) : crcByte crc b < 65536 := by
  unfold crcByte
  have hb : b &&& 0xFF < 2 ^ 16 :=
    lt_of_le_of_lt (Nat.and_le_right) (by norm_num)
  have h0 : crc ^^^ (b &&& 0xFF) < 65536 := by
    simpa using Nat.xor_lt_two_pow (by simpa using h) hb
  exact crcBit_lt (crcBit_lt (crcBit_lt (crcBit_lt (crcBit_lt (crcBit_lt (crcBit_lt (crcBit_lt h0)))))))

theorem crcFoldl_lt (data : List Nat) : ∀ crc < 65536, data.foldl crcByte crc < 65536 := by
  induction data with
  | nil => intro crc h; simpa using h
  | cons b t ih =>
    intro crc h
    exact ih _ (crcByte_lt b h)

theorem crc16_bytes_eq (data : List Nat) :
    crc16_bytes data = pyUpper (bytesToHexLower
      [data.foldl crcByte 0xFFFF % 256, data.foldl crcByte 0xFFFF / 256]) := by
  have hc : data.foldl crcByte 0xFFFF < 65536 := crcFoldl_lt data 0xFFFF (by norm_num)
  set c := data.foldl crcByte 0xFFFF with hcdef
  simp only [crc16_bytes, bytesToHexLower, ← hcdef]
  rw [pyFormat4_eq c hc]
  simp only [List.map_cons, List.map_nil, List.flatten_cons, List.flatten_nil]
  rw [byteToHexLower_eq (c % 256) (by omega), byteToHexLower_eq (c / 256) (by omega)]
  rw [show c % 256 / 16 = c / 16 % 16 by omega, show c % 256 % 16 = c % 16 by omega,
    show c / 256 / 16 = c / 4096 by omega]
  rfl

theorem crc16_bytes_pyUpper (data : List Nat) :
    pyUpper (crc16_bytes data) = crc16_bytes data := by
  rw [crc16_bytes_eq, pyUpper_pyUpper]

theorem crc16_bytes_length (data : List Nat) : (crc16_bytes data).length = 4 := by
  rw [crc16_bytes_eq]
  have hc : data.foldl crcByte 0xFFFF < 65536 := crcFoldl_lt data 0xFFFF (by norm_num)
  unfold pyUpper
  rw [List.length_map, bytesToHexLower_length _ (by
    intro b hb
    simp at hb
    rcases hb with h | h <;> omega)]
  rfl

theorem crc16_bytes_fromHex (data : List Nat) :
    bytesFromHex (crc16_bytes data) =
      some [data.foldl crcByte 0xFFFF % 256, data.foldl crcByte 0xFFFF / 256] := by
  have hc : data.foldl crcByte 0xFFFF < 65536 := crcFoldl_lt data 0xFFFF (by norm_num)
  rw [crc16_bytes_eq, bytesFromHex_pyUpper]
  exact bytesFromHex_bytesToHexLower _ (by
    intro b hb
    simp at hb
    rcases hb with h | h <;> omega)

theorem crc16_of_fromhex {s bs : List Nat} (h : bytesFromHex s = some bs) :
    crc16 s = some (crc16_bytes bs) := by
  have hfilter : s.filter (· ≠ 32) = s := by
    rw [List.filter_eq_self]
    intro c hc
    obtain ⟨v, hv⟩ := bytesFromHex_isHex h c hc
    have := hexDigitVal_ne_space hv
    simp [this]
  have hlen := bytesFromHex_length h
  simp only [crc16, hfilter]
  rw [if_neg (by omega)]
  simp [h]

theorem crc16_pyUpper (s : List Nat) : crc16 (pyUpper s) = crc16 s := by
  have hfilter : (pyUpper s).filter (· ≠ 32) = pyUpper (s.filter (· ≠ 32)) := by
    unfold pyUpper
    rw [List.filter_map]
    congr 1
    apply List.filter_congr
    intro c _
    simp [Function.comp, pyUpperChar_eq_space_iff]
  simp only [crc16, hfilter, pyUpper_length, bytesFromHex_pyUpper]

/-! ## RC4 lemmas -/

theorem xor_byte_lt {a b : Nat} (ha : a < 256) (hb : b < 256) : a ^^^ b < 256 := by
  have h28 : (2 : Nat) ^ 8 = 256 := by norm_num
  rw [← h28] at ha hb ⊢
  exact Nat.xor_lt_two_pow ha hb

theorem getD_lt_of_all {S : List Nat} (h : ∀ x ∈ S, x < 256) (i : Nat) : S.getD i 0 < 256 := by
  rw [List.getD_eq_getElem?_getD]
  cases hx : S[i]? with
  | none => simp
  | some x => simpa using h x (List.getElem?_mem hx)

theorem listSwap_all {S : List Nat} (h : ∀ x ∈ S, x < 256) (i j : Nat) :
    ∀ x ∈ listSwap S i j, x < 256 := by
  intro x hx
  unfold listSwap at hx
  rcases List.mem_or_eq_of_mem_set hx with hx | hx
  · rcases List.mem_or_eq_of_mem_set hx with hx | hx
    · exact h x hx
    · subst hx
      exact getD_lt_of_all h j
  · subst hx
    exact getD_lt_of_all h i

theorem ksa_all (key : List Nat) : ∀ x ∈ ksa key, x < 256 := by
  unfold ksa
  have main : ∀ (l : List Nat) (S : List Nat) (j : Nat), (∀ x ∈ S, x < 256) →
      ∀ x ∈ (l.foldl (ksaStep key) (S, j)).1, x < 256 := by
    intro l
    induction l with
    | nil => intro S j h; simpa using h
    | cons a t ih =>
      intro S j h
      simp only [List.foldl_cons]
      exact ih _ _ (listSwap_all h _ _)
  exact main _ _ _ (by intro x hx; exact List.mem_range.mp hx)

theorem prga_prga : ∀ (d S : List Nat) (i j : Nat), prga S i j (prga S i j d) = d
  | [], _, _, _ => rfl
  | b :: rest, S, i, j => by
    simp only [prga]
    rw [Nat.xor_assoc, Nat.xor_self, Nat.xor_zero, prga_prga rest]

theorem prga_length : ∀ (d S : List Nat) (i j : Nat), (prga S i j d).length = d.length
  | [], _, _, _ => rfl
  | _ :: rest, S, i, j => by
    simp only [prga, List.length_cons]
    rw [prga_length rest]

theorem prga_all : ∀ (d S : List Nat) (i j : Nat), (∀ x ∈ S, x < 256) →
    (∀ b ∈ d, b < 256) → ∀ y ∈ prga S i j d, y < 256
  | [], _, _, _, _, _ => by simp [prga]
  | b :: rest, S, i, j, hS, hd => by
    simp only [prga, List.mem_cons]
    intro y hy
    have hS' : ∀ x ∈ listSwap S ((i + 1) &&& 255) ((j + S.getD ((i + 1) &&& 255) 0) &&& 255),
        x < 256 := listSwap_all hS _ _
    rcases hy with hy | hy
    · subst hy
      exact xor_byte_lt (hd b (by simp)) (getD_lt_of_all hS' _)
    · exact prga_all rest _ _ _ hS' (fun x hx => hd x (by simp [hx])) y hy

theorem rc4_crypt_rc4_crypt (data key : List Nat) :
    rc4_crypt (rc4_crypt data key) key = data := prga_prga data _ 0 0

theorem rc4_crypt_length (data key : List Nat) :
    (rc4_crypt data key).length = data.length := prga_length data _ 0 0

theorem rc4_crypt_all (data key : List Nat) (h : ∀ b ∈ data, b < 256) :
    ∀ y ∈ rc4_crypt data key, y < 256 := prga_all data _ 0 0 (ksa_all key) h

/-! ## Slicing and padding lemmas -/

theorem pyDropLast_append (a b : List Nat) (n : Nat) (h : n = b.length) :
    pyDropLast (a ++ b) n = a := by
  unfold pyDropLast
  rw [List.length_append, show a.length + b.length - n = a.length by omega,
    List.take_left]

theorem pyTakeLast_append (a b : List Nat) (n : Nat) (h : n = b.length) :
    pyTakeLast (a ++ b) n = b := by
  unfold pyTakeLast
  rw [List.length_append, show a.length + b.length - n = a.length by omega,
    List.drop_left]

theorem unpad16_pad16 (bs : List Nat) : unpad16 (pad16 bs) = some bs := by
  have hk1 : 1 ≤ 16 - bs.length % 16 ∧ 16 - bs.length % 16 ≤ 16 := by omega
  set k := 16 - bs.length % 16 with hkdef
  have hlen : (pad16 bs).length = bs.length + k := by
    simp [pad16, ← hkdef]
  have hpad : pad16 bs = bs ++ List.replicate k k := by
    simp [pad16, ← hkdef]
  have hmod : (bs.length + k) % 16 = 0 := by omega
  have hgetD : (pad16 bs).getD ((pad16 bs).length - 1) 0 = k := by
    rw [hpad, List.getD_eq_getElem?_getD]
    have hl2 : (bs ++ List.replicate k k).length = bs.length + k := by simp
    rw [hl2, List.getElem?_append_right (by omega),
      show bs.length + k - 1 - bs.length = k - 1 by omega,
      List.getElem?_replicate, if_pos (by omega)]
    rfl
  have htake : pyTakeLast (pad16 bs) k = List.replicate k k := by
    rw [hpad]
    exact pyTakeLast_append _ _ _ (by simp)
  simp only [unpad16]
  rw [hgetD, htake, hlen]
  rw [if_neg (by omega), if_neg (by omega), if_neg (by omega), if_neg (by simp)]
  rw [hpad, pyDropLast_append _ _ _ (by simp)]

/-! ## Codec support lemmas -/

theorem and255_of_lt {b : Nat} (h : b < 256) : b &&& 255 = b := by
  have : b &&& 2 ^ 8 - 1 = b := Nat.and_pow_two_sub_one_of_lt_two_pow (by simpa using h)
  simpa using this

theorem and255_lt (b : Nat) : b &&& 255 < 256 :=
  lt_of_le_of_lt Nat.and_le_right (by norm_num)

theorem bytesToHexLower_append (a b : List Nat) :
    bytesToHexLower (a ++ b) = bytesToHexLower a ++ bytesToHexLower b := by
  simp [bytesToHexLower]

theorem bytesToHexLower_singleton (x : Nat) : bytesToHexLower [x] = byteToHexLower x := by
  simp [bytesToHexLower]

theorem byteToHexLower_length {b : Nat} (h : b < 256) : (byteToHexLower b).length = 2 := by
  rw [byteToHexLower_eq b h]
  rfl

theorem xor_with_byte_eq (data : List Nat) (k : Nat) :
    xor_with_byte data k = bytesToHexLower (data.map (fun b => (b &&& 255) ^^^ k)) := by
  simp [xor_with_byte, bytesToHexLower, List.map_map]
  rfl

theorem xor_mask_twice (fb : List Nat) (k : Nat) (hk : k < 256)
    (h : ∀ b ∈ fb, b < 256) :
    (fb.map (fun b => (b &&& 255) ^^^ k)).map (fun b => (b &&& 255) ^^^ k) = fb := by
  rw [List.map_map]
  have : ∀ b ∈ fb, ((fun b => (b &&& 255) ^^^ k) ∘ fun b => (b &&& 255) ^^^ k) b = id b := by
    intro b hb
    have hb' : b < 256 := h b hb
    simp only [Function.comp_apply, id_eq]
    rw [and255_of_lt hb', and255_of_lt (xor_byte_lt hb' hk),
      Nat.xor_assoc, Nat.xor_self, Nat.xor_zero]
  rw [List.map_congr_left this, List.map_id]

theorem xor_masked_lt (fb : List Nat) (k : Nat) (hk : k < 256) :
    ∀ y ∈ fb.map (fun b => (b &&& 255) ^^^ k), y < 256 := by
  intro y hy
  obtain ⟨b, _, rfl⟩ := List.mem_map.mp hy
  exact xor_byte_lt (and255_lt b) hk

/-! ## Round-trip of the RC4 codec -/

theorem rc4_roundtrip (key f fb : List Nat) (sb : Nat)
    (hf : bytesFromHex f = some fb)
    (hmagic : (pystr "DFEC").isPrefixOf (pyUpper f))
    (hsb : sb < 256) (hlen : 10 ≤ f.length) :
    (rc4_encrypt key f sb).bind (fun e => (bytesFromHex e).bind (rc4_decrypt key)) =
      some ((pyUpper f).drop 4) := by
  have hfb_lt : ∀ b ∈ fb, b < 256 := bytesFromHex_lt hf
  have hflen : f.length = 2 * fb.length := bytesFromHex_length hf
  -- the masked plaintext bytes and the CRC trailer
  set xbs := fb.map (fun b => (b &&& 255) ^^^ sb) with hxbs
  have hxbs_lt : ∀ y ∈ xbs, y < 256 := xor_masked_lt fb sb hsb
  have hxbs_len : xbs.length = fb.length := List.length_map _ _
  set cval := (xbs ++ [sb]).foldl crcByte 0xFFFF with hcval
  have hcval_lt : cval < 65536 := crcFoldl_lt _ _ (by norm_num)
  set Cc := crc16_bytes (xbs ++ [sb]) with hCc
  set ptb := xbs ++ ([sb] ++ [cval % 256, cval / 256]) with hptb
  have hptb_lt : ∀ b ∈ ptb, b < 256 := by
    intro b hb
    rw [hptb] at hb
    rcases List.mem_append.mp hb with hb | hb
    · exact hxbs_lt b hb
    · rcases List.mem_cons.mp hb with hb | hb
      · omega
      · rcases List.mem_cons.mp hb with hb | hb
        · subst hb
          omega
        · rcases List.mem_cons.mp hb with hb | hb
          · subst hb
            omega
          · simp at hb
  have hABbytes_lt : ∀ b ∈ xbs ++ [sb], b < 256 := by
    intro b hb
    simp only [List.mem_append, List.mem_singleton] at hb
    rcases hb with hb | hb
    · exact hxbs_lt b hb
    · omega
  have hAB : bytesFromHex (bytesToHexLower (xbs ++ [sb])) = some (xbs ++ [sb]) :=
    bytesFromHex_bytesToHexLower _ hABbytes_lt
  -- evaluating encrypt
  have hxor : xor_with_byte fb sb = bytesToHexLower xbs := xor_with_byte_eq fb sb
  have hsec : pyFormatHexLower 2 sb = byteToHexLower sb := rfl
  have hcrc : crc16 (xor_with_byte fb sb ++ pyFormatHexLower 2 sb) = some Cc := by
    rw [hxor, hsec, ← bytesToHexLower_singleton, ← bytesToHexLower_append]
    exact crc16_of_fromhex hAB
  have hptbytes : bytesFromHex (xor_with_byte fb sb ++ (pyFormatHexLower 2 sb ++ Cc))
      = some ptb := by
    rw [hxor, hsec, ← bytesToHexLower_singleton]
    rw [bytesFromHex_append _ _ (by
      rw [bytesToHexLower_length _ hxbs_lt]
      omega)]
    rw [bytesFromHex_bytesToHexLower _ hxbs_lt]
    rw [bytesFromHex_append _ _ (by
      rw [bytesToHexLower_length _ (by intro b hb; simp at hb; omega)]
      omega)]
    rw [bytesFromHex_bytesToHexLower _ (by intro b hb; simp at hb; omega)]
    rw [hCc, crc16_bytes_fromHex, ← hcval]
    rfl
  have henc : rc4_encrypt key f sb
      = some (pyUpper (bytesToHexLower (rc4_crypt ptb key))) := by
    simp only [rc4_encrypt, hf, hcrc, List.append_assoc, hptbytes]
  -- the ciphertext hex parses back to the ciphertext bytes
  have hct : bytesFromHex (pyUpper (bytesToHexLower (rc4_crypt ptb key)))
      = some (rc4_crypt ptb key) := by
    rw [bytesFromHex_pyUpper]
    exact bytesFromHex_bytesToHexLower _ (rc4_crypt_all _ _ hptb_lt)
  -- evaluating decrypt
  set A := pyUpper (bytesToHexLower xbs) with hA
  set B := pyUpper (byteToHexLower sb) with hB
  have hA_len : A.length = f.length := by
    rw [hA, pyUpper_length, bytesToHexLower_length _ hxbs_lt, hxbs_len, hflen]
  have hB_len : B.length = 2 := by
    rw [hB, pyUpper_length, byteToHexLower_length hsb]
  have hCc_len : Cc.length = 4 := crc16_bytes_length _
  have hhex : pyUpper (bytesToHexLower ptb) = (A ++ B) ++ Cc := by
    rw [hptb, bytesToHexLower_append, bytesToHexLower_append, bytesToHexLower_singleton]
    rw [pyUpper_append, pyUpper_append]
    rw [hCc, crc16_bytes_eq, ← hcval, ← hA, ← hB, List.append_assoc]
  have hcalc : crc16 (A ++ B) = some Cc := by
    rw [hA, hB, ← pyUpper_append, ← bytesToHexLower_singleton sb, ← bytesToHexLower_append,
      crc16_pyUpper]
    exact crc16_of_fromhex hAB
  have hpB : parseHex B = some sb := by
    rw [hB, parseHex_pyUpper]
    exact parseHex_byteToHexLower sb hsb
  have hbA : bytesFromHex A = some xbs := by
    rw [hA, bytesFromHex_pyUpper]
    exact bytesFromHex_bytesToHexLower _ hxbs_lt
  have hxd : xor_decode_hex A B = some (bytesToHexLower fb) := by
    simp only [xor_decode_hex, hpB, hbA]
    rw [xor_with_byte_eq, hxbs, xor_mask_twice fb sb hsb hfb_lt]
  have hup : pyUpper (bytesToHexLower fb) = pyUpper f := by
    rw [bytesToHexLower_eq_pyLower hf, pyUpper_pyLower]
  have hdec : rc4_decrypt key (rc4_crypt ptb key) = some ((pyUpper f).drop 4) := by
    have hlencond : ¬ ((A ++ B) ++ Cc).length < 16 := by
      simp only [List.length_append, hA_len, hB_len, hCc_len]
      omega
    simp only [rc4_decrypt, rc4_crypt_rc4_crypt, hhex]
    rw [if_neg hlencond]
    rw [pyDropLast_append _ _ 4 hCc_len.symm, pyTakeLast_append _ _ 4 hCc_len.symm]
    simp only [hcalc]
    rw [if_neg (by simp)]
    rw [pyTakeLast_append _ _ 2 hB_len.symm, pyDropLast_append _ _ 2 hB_len.symm]
    simp only [hxd]
    rw [hup]
    rw [if_neg (by simp [hmagic])]
    rw [pyUpper_drop, hup]
  rw [henc]
  show (bytesFromHex (pyUpper (bytesToHexLower (rc4_crypt ptb key)))).bind (rc4_decrypt key)
    = some ((pyUpper f).drop 4)
  rw [hct]
  show rc4_decrypt key (rc4_crypt ptb key) = some ((pyUpper f).drop 4)
  exact hdec

/-! ## Round-trip of the AES codecs -/

theorem pad16_lt {bs : List Nat} (h : ∀ b ∈ bs, b < 256) : ∀ b ∈ pad16 bs, b < 256 := by
  intro b hb
  unfold pad16 at hb
  rcases List.mem_append.mp hb with hb | hb
  · exact h b hb
  · have := List.eq_of_mem_replicate hb
    omega

theorem jackery_roundtrip (E D : List Nat → List Nat)
    (hDE : ∀ x, D (E x) = x)
    (hE : ∀ x, (∀ b ∈ x, b < 256) → ∀ b ∈ E x, b < 256)
    (magic f fb sbs : List Nat) (sb mask : Nat)
    (hf : bytesFromHex f = some fb)
    (hsuffix : (if sb = 2 then pyFormatHexLower 4 mask else pyFormatHexLower 2 mask)
      = bytesToHexLower sbs)
    (hsbs_len : sbs.length = sb)
    (hsbs_lt : ∀ b ∈ sbs, b < 256)
    (hmagic : pyUpper (f.take 4) = magic)
    (hflen4 : 4 ≤ f.length)
    (hmin : (if sb = 2 then 36 else 16) ≤ f.length + 2 * sb + 4) :
    (jackery_encrypt E sb f mask).bind
        (fun e => (bytesFromHex e).bind (jackery_decrypt D magic sb))
      = some ((pyUpper f).drop 4) := by
  have hfb_lt : ∀ b ∈ fb, b < 256 := bytesFromHex_lt hf
  have hflen : f.length = 2 * fb.length := bytesFromHex_length hf
  set S := bytesToHexLower sbs with hS
  have hS_len : S.length = 2 * sb := by
    rw [hS, bytesToHexLower_length _ hsbs_lt, hsbs_len]
  have hfsb_lt : ∀ b ∈ fb ++ sbs, b < 256 := by
    intro b hb
    rcases List.mem_append.mp hb with hb | hb
    · exact hfb_lt b hb
    · exact hsbs_lt b hb
  have hdws : bytesFromHex (f ++ S) = some (fb ++ sbs) := by
    rw [bytesFromHex_append f S (by omega), hf, hS,
      bytesFromHex_bytesToHexLower _ hsbs_lt]
    rfl
  set cval := (fb ++ sbs).foldl crcByte 0xFFFF with hcval
  have hcval_lt : cval < 65536 := crcFoldl_lt _ _ (by norm_num)
  set Cc := crc16_bytes (fb ++ sbs) with hCc
  have hCc_len : Cc.length = 4 := crc16_bytes_length _
  set ptb := (fb ++ sbs) ++ [cval % 256, cval / 256] with hptb
  have hptb_lt : ∀ b ∈ ptb, b < 256 := by
    intro b hb
    rw [hptb] at hb
    rcases List.mem_append.mp hb with hb | hb
    · exact hfsb_lt b hb
    · rcases List.mem_cons.mp hb with hb | hb
      · subst hb
        omega
      · rcases List.mem_cons.mp hb with hb | hb
        · subst hb
          omega
        · simp at hb
  have hcrc : crc16 (f ++ S) = some Cc := crc16_of_fromhex hdws
  have hptbytes : bytesFromHex ((f ++ S) ++ Cc) = some ptb := by
    rw [bytesFromHex_append _ _ (by
      simp only [List.length_append]
      omega), hdws]
    rw [hCc, crc16_bytes_fromHex, ← hcval]
    rfl
  have henc : jackery_encrypt E sb f mask
      = some (pyUpper (bytesToHexLower (E (pad16 ptb)))) := by
    simp only [jackery_encrypt, hsuffix, ← hS, hcrc, hptbytes]
  have hct : bytesFromHex (pyUpper (bytesToHexLower (E (pad16 ptb))))
      = some (E (pad16 ptb)) := by
    rw [bytesFromHex_pyUpper]
    exact bytesFromHex_bytesToHexLower _ (hE _ (pad16_lt hptb_lt))
  -- decrypt side
  have hhex : pyUpper (bytesToHexLower ptb) = (pyUpper f ++ pyUpper S) ++ Cc := by
    rw [hptb, bytesToHexLower_append, pyUpper_append]
    rw [bytesToHexLower_append, pyUpper_append]
    rw [bytesToHexLower_eq_pyLower hf, pyUpper_pyLower]
    rw [hCc, crc16_bytes_eq, ← hcval, ← hS]
  have hL : ((pyUpper f ++ pyUpper S) ++ Cc).length = f.length + (2 * sb + 4) := by
    simp only [List.length_append, pyUpper_length, hS_len, hCc_len]
    omega
  have htake4 : (pyUpper f ++ pyUpper S).take 4 = (pyUpper f).take 4 :=
    List.take_append_of_le_length (by rw [pyUpper_length]; omega)
  have hdec : jackery_decrypt D magic sb (E (pad16 ptb)) = some ((pyUpper f).drop 4) := by
    simp only [jackery_decrypt, hDE, unpad16_pad16, hhex]
    rw [if_neg (by
      rw [hL]
      split_ifs at hmin ⊢ <;> omega)]
    rw [List.take_append_of_le_length (by
      simp only [List.length_append, pyUpper_length, hS_len]
      omega)]
    rw [htake4, ← pyUpper_take, pyUpper_pyUpper, hmagic]
    rw [if_neg (by simp)]
    rw [pyDropLast_append _ _ 4 hCc_len.symm, pyTakeLast_append _ _ 4 hCc_len.symm]
    have hcalcU : crc16 (pyUpper f ++ pyUpper S) = some Cc := by
      rw [← pyUpper_append, crc16_pyUpper]
      exact hcrc
    simp only [hcalcU]
    rw [if_neg (by simp)]
    rw [hL, show f.length + (2 * sb + 4) - (sb * 2 + 4) = f.length by omega]
    rw [List.append_assoc, List.take_append_of_le_length (by rw [pyUpper_length])]
    rw [← pyUpper_length f, List.take_length]
  rw [henc]
  show (bytesFromHex (pyUpper (bytesToHexLower (E (pad16 ptb))))).bind
      (jackery_decrypt D magic sb) = some ((pyUpper f).drop 4)
  rw [hct]
  show jackery_decrypt D magic sb (E (pad16 ptb)) = some ((pyUpper f).drop 4)
  exact hdec

theorem suffix_one (mask : Nat) :
    (if (1 : Nat) = 2 then pyFormatHexLower 4 mask else pyFormatHexLower 2 mask)
      = bytesToHexLower [mask] := by
  rw [if_neg (by omega)]
  exact (bytesToHexLower_singleton mask).symm

theorem suffix_two (mask : Nat) (h : mask < 65536) :
    (if (2 : Nat) = 2 then pyFormatHexLower 4 mask else pyFormatHexLower 2 mask)
      = bytesToHexLower [mask / 256, mask % 256] := by
  rw [if_pos rfl, pyFormat4_eq mask h]
  rw [show bytesToHexLower [mask / 256, mask % 256]
    = byteToHexLower (mask / 256) ++ (byteToHexLower (mask % 256) ++ []) from rfl]
  rw [byteToHexLower_eq (mask / 256) (by omega), byteToHexLower_eq (mask % 256) (by omega)]
  rw [show mask / 256 / 16 = mask / 4096 by omega, show mask % 256 / 16 = mask / 16 % 16 by omega,
    show mask % 256 % 16 = mask % 16 by omega, show mask / 256 % 16 = mask / 256 % 16 from rfl]
  rfl

/-! ## Claim C1 -/

/-- C1 (counterexample): the claim `decrypt_V(encrypt_V(f)) == f` fails
on the code.  For the Portable-RC4 variant with the 16-byte zero key,
the frame `"DFEC000102AB"` (which starts with the `DFEC` magic) and
mask byte `0x5A`, decrypting the encryption yields `"000102AB"` — the
frame with its 4-hex-char magic prefix stripped — which is not the
original frame. -/
theorem C1_counterexample :
    (rc4_encrypt (List.replicate 16 0) (pystr "DFEC000102AB") 90).bind
        (fun e => (bytesFromHex e).bind (rc4_decrypt (List.replicate 16 0)))
      = some (pystr "000102AB")
    ∧ some (pystr "000102AB") ≠ some (pystr "DFEC000102AB") := by
  constructor
  · decide
  · decide

/-- C1 (amended): for every variant in `{Portable-RC4, Portable-AES,
Box-AES}`, every key, every admissible random mask, and every
even-length hex frame that starts with the variant's magic and meets
the variant's minimum length (10 hex chars for the portable variants,
28 for box), decrypting the encryption returns the frame uppercased
with its 4-hex-char magic prefix removed (the random mask and CRC are
also stripped).  The AES-CBC transform of the third-party library is
abstracted as `E`/`D` with its guarantees as hypotheses. -/
theorem C1_amended :
    (∀ key f fb sb, bytesFromHex f = some fb →
      (pystr "DFEC").isPrefixOf (pyUpper f) → sb < 256 → 10 ≤ f.length →
      (rc4_encrypt key f sb).bind (fun e => (bytesFromHex e).bind (rc4_decrypt key))
        = some ((pyUpper f).drop 4))
    ∧ (∀ E D f fb mask, (∀ x, D (E x) = x) →
        (∀ x, (∀ b ∈ x, b < 256) → ∀ b ∈ E x, b < 256) →
        bytesFromHex f = some fb → pyUpper (f.take 4) = pystr "DFEC" →
        mask < 256 → 10 ≤ f.length →
        (jackery_encrypt E 1 f mask).bind
            (fun e => (bytesFromHex e).bind (jackery_decrypt D (pystr "DFEC") 1))
          = some ((pyUpper f).drop 4))
    ∧ (∀ E D f fb mask, (∀ x, D (E x) = x) →
        (∀ x, (∀ b ∈ x, b < 256) → ∀ b ∈ E x, b < 256) →
        bytesFromHex f = some fb → pyUpper (f.take 4) = pystr "DFED" →
        mask < 65536 → 28 ≤ f.length →
        (jackery_encrypt E 2 f mask).bind
            (fun e => (bytesFromHex e).bind (jackery_decrypt D (pystr "DFED") 2))
          = some ((pyUpper f).drop 4)) := by
  refine ⟨?_, ?_, ?_⟩
  · intro key f fb sb hf hmagic hsb hlen
    exact rc4_roundtrip key f fb sb hf hmagic hsb hlen
  · intro E D f fb mask hDE hE hf hmagic hmask hlen
    exact jackery_roundtrip E D hDE hE (pystr "DFEC") f fb [mask] 1 mask hf
      (suffix_one mask) rfl (by intro b hb; simp at hb; omega) hmagic (by omega)
      (by norm_num; omega)
  · intro E D f fb mask hDE hE hf hmagic hmask hlen
    exact jackery_roundtrip E D hDE hE (pystr "DFED") f fb [mask / 256, mask % 256] 2 mask hf
      (suffix_two mask hmask) rfl (by intro b hb; simp at hb; rcases hb with h | h <;> omega)
      hmagic (by omega) (by norm_num; omega)

/-- C1 (witness): the amended round-trip instantiated on concrete
inputs — the RC4 conjunct on the zero key and frame `"DFEC000102AB"`
with mask `0x5A`, and both AES conjuncts with the identity cipher on
concrete portable and box frames. -/
theorem C1_witness :
    ((rc4_encrypt (List.replicate 16 0) (pystr "DFEC000102AB") 90).bind
        (fun e => (bytesFromHex e).bind (rc4_decrypt (List.replicate 16 0)))
      = some ((pyUpper (pystr "DFEC000102AB")).drop 4))
    ∧ ((jackery_encrypt id 1 (pystr "DFEC000102AB") 90).bind
        (fun e => (bytesFromHex e).bind (jackery_decrypt id (pystr "DFEC") 1))
      = some ((pyUpper (pystr "DFEC000102AB")).drop 4))
    ∧ ((jackery_encrypt id 2 (pystr "DFED000102030405060708090A0B") 4660).bind
        (fun e => (bytesFromHex e).bind (jackery_decrypt id (pystr "DFED") 2))
      = some ((pyUpper (pystr "DFED000102030405060708090A0B")).drop 4)) := by
  refine ⟨?_, ?_, ?_⟩
  · exact C1_amended.1 (List.replicate 16 0) (pystr "DFEC000102AB")
      [0xDF, 0xEC, 0x00, 0x01, 0x02, 0xAB] 90 (by decide) (by decide) (by decide) (by decide)
  · exact C1_amended.2.1 id id (pystr "DFEC000102AB")
      [0xDF, 0xEC, 0x00, 0x01, 0x02, 0xAB] 90 (fun x => rfl) (fun x h => h)
      (by decide) (by decide) (by decide) (by decide)
  · exact C1_amended.2.2 id id (pystr "DFED000102030405060708090A0B")
      [0xDF, 0xED, 0x00, 0x01, 0x02, 0x03, 0x04, 0x05, 0x06, 0x07, 0x08, 0x09, 0x0A, 0x0B]
      4660 (fun x => rfl) (fun x h => h) (by decide) (by decide) (by decide) (by decide)

/-! ## Claim C9 -/

/-- C9 (counterexample): the claim says `set_light_mode(3)` has a
9-byte body and body-length byte `0x09`; in fact
`json.dumps({"lm": 3}, separators=(',', ':'))` is the 8-character
string `{"lm":3}`, so the body is 8 bytes and the length byte (hex
chars 10–11 of the frame) is `"08"`, not `"09"`. -/
theorem C9_counterexample :
    ((set_light_mode (pystr "portable") 3).take 12).drop 10 = pystr "08"
    ∧ pystr "08" ≠ pystr "09" := by
  constructor
  · decide
  · decide

/-- C9 (amended): `set_light_mode(3)` produces exactly the frame
`DFEC00 07 04 08` followed by the uppercase hex of the UTF-8 bytes of
`{"lm":3}`; the body decodes back to `{"lm":3}` (8 bytes, so the
body-length byte is `0x08`). -/
theorem C9_amended :
    set_light_mode (pystr "portable") 3 = pystr "DFEC000704087B226C6D223A337D"
    ∧ (bytesFromHex ((set_light_mode (pystr "portable") 3).drop 12)).map utf8DecodeIgnore
        = some (pystr "\x7b\"lm\":3\x7d")
    ∧ (utf8Encode (compactJsonIntField "lm" 3)).length = 8
    ∧ ((set_light_mode (pystr "portable") 3).take 12).drop 10 = pystr "08" := by
  refine ⟨by decide, by decide, by decide, by decide⟩

/-! ## Claim C3 -/

theorem dictInsert_keys_replace {k : Nat} {v : List Nat} {d : List (Nat × List Nat)}
    (h : d.any (fun p => p.1 = k)) :
    (dictInsert k v d).map Prod.fst = d.map Prod.fst := by
  unfold dictInsert
  rw [if_pos h, List.map_map]
  apply List.map_congr_left
  intro p _
  by_cases hp : p.1 = k
  · simp [hp]
  · simp [hp]

theorem dictInsert_keys_append {k : Nat} {v : List Nat} {d : List (Nat × List Nat)}
    (h : ¬ d.any (fun p => p.1 = k)) :
    (dictInsert k v d).map Prod.fst = d.map Prod.fst ++ [k] := by
  unfold dictInsert
  rw [if_neg h, List.map_append]
  rfl

theorem dictInsert_nodup (k : Nat) (v : List Nat) (d : List (Nat × List Nat))
    (h : (d.map Prod.fst).Nodup) : ((dictInsert k v d).map Prod.fst).Nodup := by
  by_cases hk : d.any (fun p => p.1 = k)
  · rw [dictInsert_keys_replace hk]
    exact h
  · rw [dictInsert_keys_append hk]
    refine List.Nodup.append h (List.nodup_singleton k) ?_
    intro a ha hb
    simp only [List.mem_singleton] at hb
    subst hb
    obtain ⟨p, hp, hpa⟩ := List.mem_map.mp ha
    exact hk (List.any_eq_true.mpr ⟨p, hp, by simp [hpa]⟩)

/-- C3 (counterexample): the claim says multi-packet completion occurs
only when every index `1..total` is present.  A single notification
with packet index 2 and total 1 (`"8000000000020001AB"`) completes the
assembly — the response event is set — although index 1 was never
received: the trigger is `len(buffer) >= total`, not presence of all
indices. -/
theorem C3_counterexample :
    (handle_multi_packet ⟨[], 0, none, false⟩ (pystr "8000000000020001AB")).event = true
    ∧ parseHex (((pystr "8000000000020001AB").take 12).drop 8) = some 2
    ∧ parseHex (((pystr "8000000000020001AB").take 16).drop 12) = some 1
    ∧ (2 : Nat) ≠ 1 := by
  refine ⟨by decide, by decide, by decide, by decide⟩

/-- C3 (amended): on a parsable multi-packet notification, completion
(the response event turning on) happens exactly when the buffer after
inserting the new chunk holds at least `total` entries; when every
buffered index lies in `1..total` (no stale or out-of-range entries),
this coincides with the claim's condition that every index `1..total`
is present. -/
theorem C3_amended (st : ClientState) (d : List Nat) (pn total : Nat)
    (hpn : parseHex ((d.take 12).drop 8) = some pn)
    (htot : parseHex ((d.take 16).drop 12) = some total)
    (hev : st.event = false)
    (hnodup : (st.buffer.map Prod.fst).Nodup) :
    ((handle_multi_packet st d).event = true ↔
      total ≤ (dictInsert pn (d.drop 16) st.buffer).length)
    ∧ ((∀ k ∈ (dictInsert pn (d.drop 16) st.buffer).map Prod.fst, 1 ≤ k ∧ k ≤ total) →
      ((handle_multi_packet st d).event = true ↔
        ∀ i, 1 ≤ i → i ≤ total → i ∈ (dictInsert pn (d.drop 16) st.buffer).map Prod.fst)) := by
  have hkeys_nodup : ((dictInsert pn (d.drop 16) st.buffer).map Prod.fst).Nodup :=
    dictInsert_nodup pn _ st.buffer hnodup
  have hkeys_len : ((dictInsert pn (d.drop 16) st.buffer).map Prod.fst).length
      = (dictInsert pn (d.drop 16) st.buffer).length := List.length_map _ _
  have hmain : (handle_multi_packet st d).event = true ↔
      total ≤ (dictInsert pn (d.drop 16) st.buffer).length := by
    simp only [handle_multi_packet, hpn, htot]
    by_cases hc : total ≤ (dictInsert pn (d.drop 16) st.buffer).length
    · rw [if_pos hc]
      simpa using hc
    · rw [if_neg hc]
      simp [hev, hc]
  refine ⟨hmain, fun hsub => hmain.trans ⟨fun hlen i h1 hi => ?_, fun hall => ?_⟩⟩
  · -- at least `total` distinct keys inside `1..total` means all are present
    set keys := (dictInsert pn (d.drop 16) st.buffer).map Prod.fst with hkeys
    have hsubset : keys.toFinset ⊆ Finset.Icc 1 total := by
      intro a ha
      have := hsub a (List.mem_toFinset.mp ha)
      exact Finset.mem_Icc.mpr this
    have hcard : (Finset.Icc 1 total).card ≤ keys.toFinset.card := by
      rw [Nat.card_Icc, List.toFinset_card_of_nodup hkeys_nodup]
      omega
    have heq : keys.toFinset = Finset.Icc 1 total :=
      Finset.eq_of_subset_of_card_le hsubset hcard
    have : i ∈ keys.toFinset := by
      rw [heq]
      exact Finset.mem_Icc.mpr ⟨h1, hi⟩
    exact List.mem_toFinset.mp this
  · -- conversely, all of `1..total` present forces at least `total` entries
    set keys := (dictInsert pn (d.drop 16) st.buffer).map Prod.fst with hkeys
    have hsubset : Finset.Icc 1 total ⊆ keys.toFinset := by
      intro a ha
      obtain ⟨h1, h2⟩ := Finset.mem_Icc.mp ha
      exact List.mem_toFinset.mpr (hall a h1 h2)
    have := Finset.card_le_card hsubset
    rw [Nat.card_Icc, List.toFinset_card_of_nodup hkeys_nodup] at this
    omega

/-- C3 (witness): the amended characterisation instantiated on the
empty buffer and the notification `"8000000000020001AB"` (index 2,
total 1): completion holds because the buffer reached one entry. -/
theorem C3_witness :
    (handle_multi_packet ⟨[], 0, none, false⟩ (pystr "8000000000020001AB")).event = true := by
  have h := C3_amended ⟨[], 0, none, false⟩ (pystr "8000000000020001AB") 2 1
    (by decide) (by decide) (by decide) (by decide)
  exact h.1.mpr (by decide)

/-! ## Claim C4 -/

theorem autoTryFrom_none {ed : List Nat} :
    ∀ (hs : List (List Nat × (List Nat → Option (List Nat)))) (i : Nat),
    (autoTryFrom ed hs i).1 = none → (autoTryFrom ed hs i).2 = none
  | [], _, _ => rfl
  | (t, dec) :: rest, i, h => by
    simp only [autoTryFrom] at h ⊢
    cases hd : dec ed with
    | some r => simp [hd] at h
    | none =>
      simp only [hd] at h ⊢
      exact autoTryFrom_none rest (i + 1) h

/-- C4 (counterexample): the claim says a decode returning `null`
never mutates the latch.  With the portable handler list (RC4 then
Portable-AES, with the identity standing in for the CBC transform,
which agrees with it on the empty ciphertext), a latch on handler 0
and the empty input: both handlers fail, the decode returns `null`,
and the latch is cleared from `some 0` to `none`. -/
theorem C4_counterexample :
    (autoDetectDecrypt (portableHandlers (List.replicate 16 0) id) (some 0) []).1 = none
    ∧ (autoDetectDecrypt (portableHandlers (List.replicate 16 0) id) (some 0) []).2 = none
    ∧ (some 0 : Option Nat) ≠ none := by
  refine ⟨by decide, by decide, by decide⟩

/-- C4 (amended): whenever `AutoDetectEncryption.decrypt` returns
`null`, the latch afterwards is empty: a null decode never installs a
new handler, and it clears a previously latched handler whose
decryption failed (so the latch is only unchanged when it was already
empty). -/
theorem C4_amended (handlers : List (List Nat × (List Nat → Option (List Nat))))
    (detected : Option Nat) (ed : List Nat)
    (h : (autoDetectDecrypt handlers detected ed).1 = none) :
    (autoDetectDecrypt handlers detected ed).2 = none := by
  unfold autoDetectDecrypt at h ⊢
  cases detected with
  | none => exact autoTryFrom_none handlers 0 h
  | some i =>
    cases hg : handlers.get? i with
    | none =>
      simp only [hg] at h ⊢
      exact autoTryFrom_none handlers 0 h
    | some td =>
      obtain ⟨t, dec⟩ := td
      simp only [hg] at h ⊢
      cases hd : dec ed with
      | none =>
        simp only [hd] at h ⊢
        exact autoTryFrom_none handlers 0 h
      | some r =>
        simp only [hd] at h ⊢
        by_cases hr : r ≠ []
        · rw [if_pos hr] at h
          simp at h
        · rw [if_neg hr] at h ⊢
          exact autoTryFrom_none handlers 0 h

/-- C4 (witness): the amended statement at the counterexample's input
— after the failing decode of the empty ciphertext the latch is
`none`. -/
theorem C4_witness :
    (autoDetectDecrypt (portableHandlers (List.replicate 16 0) id) (some 0) []).2 = none :=
  C4_amended (portableHandlers (List.replicate 16 0) id) (some 0) [] (by decide)

/-! ## Claim C5 -/

/-- C5: the claim (and the spec's "must restore it on every exit
path") fails on the code: `send_command_collect_all` has no
`try/finally`, so when the GATT write raises, the temporary collector
stays installed.  On a connected client whose callback slot held
`user 7`, a failing write leaves the slot at `collectAll` (plain path)
or `autoProbe` (auto-detect probe path) and the exception propagates —
the slot no longer equals its value before the call. -/
theorem C5_theorem :
    ((send_command_collect_all ⟨true, NotifSlot.user 7, false, none, []⟩
        false false [] []).2.callback = NotifSlot.collectAll
      ∧ (send_command_collect_all ⟨true, NotifSlot.user 7, false, none, []⟩
        false false [] []).1 = Except.error ()
      ∧ NotifSlot.collectAll ≠ NotifSlot.user 7)
    ∧ ((send_command_collect_all ⟨true, NotifSlot.user 7, false, none, []⟩
        false true [[1]] []).2.callback = NotifSlot.autoProbe
      ∧ (send_command_collect_all ⟨true, NotifSlot.user 7, false, none, []⟩
        false true [[1]] []).1 = Except.error ()
      ∧ NotifSlot.autoProbe ≠ NotifSlot.user 7)
    ∧ (send_command_collect_all ⟨true, NotifSlot.user 7, false, none, []⟩
        true false [] [[3], [4]].flatten).2.callback = NotifSlot.user 7 := by
  refine ⟨⟨rfl, rfl, by decide⟩, ⟨rfl, rfl, by decide⟩, rfl⟩

/-! ## Claim C8 -/

/-- C8: for both codec families, a decrypted-and-unpadded candidate
whose magic prefix does not match the variant's magic, or whose
recomputed CRC-16 differs from the 4-hex-char trailer, decodes to
`none`; and decode is total — it returns `none` or a payload, never an
exception (the embedding returns `Option` and models the `try/except`
as `none`). -/
theorem C8_theorem :
    (∀ (D : List Nat → List Nat) magic sb ed pt, unpad16 (D ed) = some pt →
      pyUpper ((pyUpper (bytesToHexLower pt)).take 4) ≠ magic →
      jackery_decrypt D magic sb ed = none)
    ∧ (∀ (D : List Nat → List Nat) magic sb ed pt cc, unpad16 (D ed) = some pt →
      crc16 (pyDropLast (pyUpper (bytesToHexLower pt)) 4) = some cc →
      pyUpper cc ≠ pyUpper (pyTakeLast (pyUpper (bytesToHexLower pt)) 4) →
      jackery_decrypt D magic sb ed = none)
    ∧ (∀ key ed decoded,
      xor_decode_hex
          (pyDropLast (pyDropLast (pyUpper (bytesToHexLower (rc4_crypt ed key))) 4) 2)
          (pyTakeLast (pyDropLast (pyUpper (bytesToHexLower (rc4_crypt ed key))) 4) 2)
        = some decoded →
      ¬ (pystr "DFEC").isPrefixOf (pyUpper decoded) →
      rc4_decrypt key ed = none)
    ∧ (∀ key ed cc,
      crc16 (pyDropLast (pyUpper (bytesToHexLower (rc4_crypt ed key))) 4) = some cc →
      pyUpper cc ≠ pyUpper (pyTakeLast (pyUpper (bytesToHexLower (rc4_crypt ed key))) 4) →
      rc4_decrypt key ed = none)
    ∧ (∀ (D : List Nat → List Nat) magic sb ed,
      jackery_decrypt D magic sb ed = none ∨ ∃ p, jackery_decrypt D magic sb ed = some p)
    ∧ (∀ key ed, rc4_decrypt key ed = none ∨ ∃ p, rc4_decrypt key ed = some p) := by
  refine ⟨?_, ?_, ?_, ?_, ?_, ?_⟩
  · intro D magic sb ed pt h hm
    simp only [jackery_decrypt, h]
    by_cases hl : (pyUpper (bytesToHexLower pt)).length < (if sb = 2 then 36 else 16)
    · rw [if_pos hl]
    · rw [if_neg hl, if_pos hm]
  · intro D magic sb ed pt cc h hcc hne
    simp only [jackery_decrypt, h]
    by_cases hl : (pyUpper (bytesToHexLower pt)).length < (if sb = 2 then 36 else 16)
    · rw [if_pos hl]
    · rw [if_neg hl]
      by_cases hm : pyUpper ((pyUpper (bytesToHexLower pt)).take 4) ≠ magic
      · rw [if_pos hm]
      · rw [if_neg hm]
        simp only [hcc]
        rw [if_pos hne]
  · intro key ed decoded hxd hm
    simp only [rc4_decrypt]
    by_cases hl : (pyUpper (bytesToHexLower (rc4_crypt ed key))).length < 16
    · rw [if_pos hl]
    · rw [if_neg hl]
      split
      · rfl
      · rename_i cc _
        by_cases hne : pyUpper cc
            ≠ pyUpper (pyTakeLast (pyUpper (bytesToHexLower (rc4_crypt ed key))) 4)
        · rw [if_pos hne]
        · rw [if_neg hne]
          simp only [hxd]
          rw [if_pos hm]
  · intro key ed cc hcc hne
    simp only [rc4_decrypt]
    by_cases hl : (pyUpper (bytesToHexLower (rc4_crypt ed key))).length < 16
    · rw [if_pos hl]
    · rw [if_neg hl]
      simp only [hcc]
      rw [if_pos hne]
  · intro D magic sb ed
    cases h : jackery_decrypt D magic sb ed with
    | none => exact Or.inl rfl
    | some p => exact Or.inr ⟨p, rfl⟩
  · intro key ed
    cases h : rc4_decrypt key ed with
    | none => exact Or.inl rfl
    | some p => exact Or.inr ⟨p, rfl⟩

/-- C8 (witness): each mismatch case at a concrete input — a 16-byte
all-zero plaintext whose magic is `"0000…"` and whose CRC trailer
fails, and for the RC4 codec a ciphertext of a frame with magic
`"AAAA"` (magic mismatch) and ten zero bytes (CRC mismatch); each
decode returns `none`. -/
theorem C8_witness :
    jackery_decrypt id (pystr "DFEC") 1 (pad16 (List.replicate 16 0)) = none
    ∧ jackery_decrypt id (pystr "DFED") 2 (pad16 (List.replicate 16 0)) = none
    ∧ rc4_decrypt (List.replicate 16 0) [46, 232, 211, 27, 66, 109, 243, 100] = none
    ∧ rc4_decrypt (List.replicate 16 0) (List.replicate 10 0) = none := by
  refine ⟨?_, ?_, ?_, ?_⟩
  · exact C8_theorem.1 id (pystr "DFEC") 1 (pad16 (List.replicate 16 0))
      (List.replicate 16 0) (by decide) (by decide)
  · exact C8_theorem.2.1 id (pystr "DFED") 2 (pad16 (List.replicate 16 0))
      (List.replicate 16 0) (pystr "AB01") (by decide) (by decide) (by decide)
  · exact C8_theorem.2.2.1 (List.replicate 16 0) [46, 232, 211, 27, 66, 109, 243, 100]
      (pystr "aaaa0000bb") (by decide) (by decide)
  · exact C8_theorem.2.2.2.1 (List.replicate 16 0) (List.replicate 10 0)
      (pystr "5C85") (by decide) (by decide)

/-! ## Claim C10 -/

theorem hexDigitLower_class (n : Nat) (h : n < 16) :
    48 ≤ hexDigitLower n ∧ hexDigitLower n ≤ 102
      ∧ ¬ (65 ≤ hexDigitLower n ∧ hexDigitLower n ≤ 90) := by
  unfold hexDigitLower
  split <;> omega

theorem bytesToHexLower_lowercase (data : List Nat) (hdata : ∀ b ∈ data, b < 256) :
    ∀ c ∈ bytesToHexLower data, 48 ≤ c ∧ c ≤ 102 ∧ ¬ (65 ≤ c ∧ c ≤ 90) := by
  intro c hc
  unfold bytesToHexLower at hc
  obtain ⟨l, hl, hcl⟩ := List.mem_flatten.mp hc
  obtain ⟨b, hb, rfl⟩ := List.mem_map.mp hl
  have hb' : b < 256 := hdata b hb
  rw [byteToHexLower_eq b hb'] at hcl
  rcases List.mem_cons.mp hcl with rfl | hcl
  · exact hexDigitLower_class _ (by omega)
  · rcases List.mem_cons.mp hcl with rfl | hcl
    · exact hexDigitLower_class _ (by omega)
    · simp at hcl

/-- C10: on a connected client with no codec configured,
`send_command` writes exactly the command's hex bytes (no encryption),
and a notification arriving during the wait bypasses decryption,
magic-prefix and CRC validation entirely: its raw bytes are stored as
lowercase hex (characters only in `0-9a-f`), the response event is
set, and the call returns that hex string. -/
theorem C10_theorem (st : ClientState) (command_hex bs data : List Nat)
    (hcmd : bytesFromHex command_hex = some bs)
    (hdata : ∀ b ∈ data, b < 256) :
    send_command_noenc st command_hex [data]
      = some (bs, some (bytesToHexLower data),
          { buffer := st.buffer, expected := st.expected,
            lastResponse := some (bytesToHexLower data), event := true })
    ∧ (∀ c ∈ bytesToHexLower data, 48 ≤ c ∧ c ≤ 102 ∧ ¬ (65 ≤ c ∧ c ≤ 90)) := by
  constructor
  · simp only [send_command_noenc, hcmd, List.foldl_cons, List.foldl_nil, handle_notification]
    rfl
  · exact bytesToHexLower_lowercase data hdata

/-- C10 (witness): with an empty initial state, command hex `"AB01"`
and the notification bytes `[0xDE, 0xAD]`, the write is `[0xAB, 0x01]`
and the returned response is the lowercase hex `"dead"`. -/
theorem C10_witness :
    send_command_noenc ⟨[], 0, none, false⟩ (pystr "AB01") [[222, 173]]
      = some ([171, 1], some (bytesToHexLower [222, 173]),
          { buffer := [], expected := 0,
            lastResponse := some (bytesToHexLower [222, 173]), event := true })
    ∧ bytesToHexLower [222, 173] = pystr "dead" := by
  constructor
  · exact (C10_theorem ⟨[], 0, none, false⟩ (pystr "AB01") [171, 1] [222, 173]
      (by decide) (by decide)).1
  · decide

/-! ## Claim C6 -/

/-- C6 (counterexample): the claim says every frame-codec constructor
normalises the key to exactly 16 bytes.  `PortableRC4Encryption.__init__`
does not: the one-byte hex key `"00"` is accepted and used as the
single byte `[0]`, whose length is 1, not 16. -/
theorem C6_counterexample :
    rc4KeyBytes (pystr "00") false = some [0]
    ∧ ([0] : List Nat).length ≠ 16 := by
  refine ⟨by decide, by decide⟩

/-- C6 (amended): the AES codecs (`JackeryEncryption.__init__`)
normalise every accepted key (hex or base64) to exactly 16 bytes —
truncating when longer, right-padding with zero bytes when shorter —
and use it as the IV; the RC4 codec performs no such normalisation and
accepts keys of other lengths unchanged. -/
theorem C6_amended :
    (∀ key b64 kb iv, jackeryKeyIv key b64 = some (kb, iv) → kb.length = 16 ∧ iv = kb)
    ∧ (∃ key kb, rc4KeyBytes key false = some kb ∧ kb.length ≠ 16) := by
  constructor
  · intro key b64 kb iv h
    cases hk : keyBytesOf key b64 with
    | none => rw [jackeryKeyIv, hk] at h; simp at h
    | some raw =>
      rw [jackeryKeyIv, hk] at h
      simp only [Option.map_some', Option.some.injEq, Prod.mk.injEq] at h
      obtain ⟨h1, h2⟩ := h
      subst h1
      subst h2
      refine ⟨?_, rfl⟩
      by_cases h16 : 16 < raw.length
      · rw [if_pos h16, List.length_take]
        omega
      · by_cases hlt : raw.length < 16
        · rw [if_neg h16, if_pos hlt]
          simp
          omega
        · rw [if_neg h16, if_neg hlt]
          omega
  · exact ⟨pystr "00", [0], by decide, by decide⟩

/-- C6 (witness): the AES normalisation applied to an 18-byte hex key
(truncated to its first 16 bytes, IV equal to the key) and to a 3-byte
base64 key (`"TWFu"`, zero-padded to 16 bytes). -/
theorem C6_witness :
    (([0, 1, 2, 3, 4, 5, 6, 7, 8, 9, 10, 11, 12, 13, 14, 15] : List Nat).length = 16
      ∧ ([0, 1, 2, 3, 4, 5, 6, 7, 8, 9, 10, 11, 12, 13, 14, 15] : List Nat)
        = [0, 1, 2, 3, 4, 5, 6, 7, 8, 9, 10, 11, 12, 13, 14, 15])
    ∧ (([77, 97, 110, 0, 0, 0, 0, 0, 0, 0, 0, 0, 0, 0, 0, 0] : List Nat).length = 16
      ∧ ([77, 97, 110, 0, 0, 0, 0, 0, 0, 0, 0, 0, 0, 0, 0, 0] : List Nat)
        = [77, 97, 110, 0, 0, 0, 0, 0, 0, 0, 0, 0, 0, 0, 0, 0]) := by
  constructor
  · have h := C6_amended.1 (pystr "000102030405060708090A0B0C0D0E0F1011") false
      [0, 1, 2, 3, 4, 5, 6, 7, 8, 9, 10, 11, 12, 13, 14, 15]
      [0, 1, 2, 3, 4, 5, 6, 7, 8, 9, 10, 11, 12, 13, 14, 15] (by decide)
    exact ⟨h.1, h.2.symm⟩
  · have h := C6_amended.1 (pystr "TWFu") true
      [77, 97, 110, 0, 0, 0, 0, 0, 0, 0, 0, 0, 0, 0, 0, 0]
      [77, 97, 110, 0, 0, 0, 0, 0, 0, 0, 0, 0, 0, 0, 0, 0] (by decide)
    exact ⟨h.1, h.2.symm⟩

/-! ## Claim C7 -/

/-- C7: codec selection follows the claimed precedence.  In
`get_encryption_handler`: a recognised explicit override wins
regardless of device type and model code; with no override,
`device_type == "box"` (case-insensitive) picks Box-AES, then model
code 20 or 21 picks Portable-AES, and anything else (including an
unknown model code) picks RC4.  In `connect_by_address`, a client with
a key, a non-box device type and an unknown model code gets the
auto-detect codec. -/
theorem C7_theorem :
    (∀ dt mc, get_encryption_handler dt mc (some (pystr "aes_box")) = HandlerKind.box)
    ∧ (∀ dt mc, get_encryption_handler dt mc (some (pystr "aes_portable"))
        = HandlerKind.aesPortable)
    ∧ (∀ dt mc, get_encryption_handler dt mc (some (pystr "rc4")) = HandlerKind.rc4)
    ∧ (∀ dt mc, pyLower dt = pystr "box" →
        get_encryption_handler dt mc none = HandlerKind.box)
    ∧ (∀ dt mc, pyLower dt ≠ pystr "box" → mc ∈ AES_MODEL_CODES →
        get_encryption_handler dt (some mc) none = HandlerKind.aesPortable)
    ∧ (∀ dt mc, pyLower dt ≠ pystr "box" → mc ∉ AES_MODEL_CODES →
        get_encryption_handler dt (some mc) none = HandlerKind.rc4)
    ∧ (∀ dt, pyLower dt ≠ pystr "box" →
        get_encryption_handler dt none none = HandlerKind.rc4)
    ∧ (∀ k dt, k ≠ [] → dt ≠ pystr "box" →
        connect_by_address_handler (some k) dt none = some HandlerKind.autoDetect) := by
  refine ⟨?_, ?_, ?_, ?_, ?_, ?_, ?_, ?_⟩
  · intro dt mc
    have h1 : ¬ (pystr "aes_box" = ([] : List Nat)) := by decide
    simp only [get_encryption_handler]
    rw [if_neg h1]
    exact if_pos trivial
  · intro dt mc
    have h1 : ¬ (pystr "aes_portable" = ([] : List Nat)) := by decide
    have h2 : ¬ (pystr "aes_portable" = pystr "aes_box") := by decide
    simp only [get_encryption_handler]
    rw [if_neg h1, if_neg h2]
    exact if_pos trivial
  · intro dt mc
    have h1 : ¬ (pystr "rc4" = ([] : List Nat)) := by decide
    have h2 : ¬ (pystr "rc4" = pystr "aes_box") := by decide
    have h3 : ¬ (pystr "rc4" = pystr "aes_portable") := by decide
    simp only [get_encryption_handler]
    rw [if_neg h1, if_neg h2, if_neg h3]
    exact if_pos trivial
  · intro dt mc h
    simp only [get_encryption_handler]
    rw [if_pos h]
  · intro dt mc h hmc
    simp only [get_encryption_handler]
    rw [if_neg h, if_pos hmc]
  · intro dt mc h hmc
    simp only [get_encryption_handler]
    rw [if_neg h, if_neg hmc]
  · intro dt h
    simp only [get_encryption_handler]
    rw [if_neg h]
  · intro k dt hk hdt
    simp only [connect_by_address_handler]
    rw [if_neg (by simpa using hk), if_neg hdt]

/-- C7 (witness): the selection rules at concrete inputs — overrides
on a box device with model 5, `device_type "Box"` (case-insensitive
match), portable with model 20, portable with model 5, portable with
unknown model, and `connect_by_address` with a key and unknown
model. -/
theorem C7_witness :
    get_encryption_handler (pystr "Box") (some 5) none = HandlerKind.box
    ∧ get_encryption_handler (pystr "portable") (some 20) none = HandlerKind.aesPortable
    ∧ get_encryption_handler (pystr "portable") (some 5) none = HandlerKind.rc4
    ∧ get_encryption_handler (pystr "portable") none none = HandlerKind.rc4
    ∧ connect_by_address_handler (some (pystr "k")) (pystr "portable") none
        = some HandlerKind.autoDetect := by
  refine ⟨?_, ?_, ?_, ?_, ?_⟩
  · exact C7_theorem.2.2.2.1 (pystr "Box") (some 5) (by decide)
  · exact C7_theorem.2.2.2.2.1 (pystr "portable") 20 (by decide) (by decide)
  · exact C7_theorem.2.2.2.2.2.1 (pystr "portable") 5 (by decide) (by decide)
  · exact C7_theorem.2.2.2.2.2.2.1 (pystr "portable") (by decide)
  · exact C7_theorem.2.2.2.2.2.2.2 (pystr "k") (pystr "portable") (by decide) (by decide)

/-! ## Claim C2 -/

theorem pyDropLast_length (s : List Nat) (k : Nat) :
    (pyDropLast s k).length = s.length - k := by
  simp [pyDropLast]

theorem pyTakeLast_length (s : List Nat) (k : Nat) (h : k ≤ s.length) :
    (pyTakeLast s k).length = k := by
  simp [pyTakeLast]
  omega

theorem btl_isHex {bs : List Nat} (h : ∀ b ∈ bs, b < 256) :
    ∀ c ∈ bytesToHexLower bs, ∃ v, hexDigitVal c = some v := by
  intro c hc
  unfold bytesToHexLower at hc
  obtain ⟨l, hl, hcl⟩ := List.mem_flatten.mp hc
  obtain ⟨b, hb, rfl⟩ := List.mem_map.mp hl
  have hb' : b < 256 := h b hb
  rw [byteToHexLower_eq b hb'] at hcl
  rcases List.mem_cons.mp hcl with rfl | hcl
  · exact ⟨b / 16, hexDigitVal_hexDigitLower _ (by omega)⟩
  · rcases List.mem_cons.mp hcl with rfl | hcl
    · exact ⟨b % 16, hexDigitVal_hexDigitLower _ (by omega)⟩
    · simp at hcl

theorem upper_btl_isHex {bs : List Nat} (h : ∀ b ∈ bs, b < 256) :
    ∀ c ∈ pyUpper (bytesToHexLower bs), ∃ v, hexDigitVal c = some v := by
  intro c hc
  obtain ⟨c0, hc0, rfl⟩ := List.mem_map.mp hc
  obtain ⟨v, hv⟩ := btl_isHex h c0 hc0
  exact ⟨v, by rw [hexDigitVal_pyUpperChar, hv]⟩

theorem parseHexAux_some : ∀ (s : List Nat) (acc : Nat),
    (∀ c ∈ s, ∃ v, hexDigitVal c = some v) → ∃ n, parseHexAux acc s = some n
  | [], acc, _ => ⟨acc, rfl⟩
  | c :: t, acc, h => by
    obtain ⟨v, hv⟩ := h c (by simp)
    simp only [parseHexAux, hv]
    exact parseHexAux_some t _ (fun x hx => h x (by simp [hx]))

theorem parseHex_some {s : List Nat} (hhex : ∀ c ∈ s, ∃ v, hexDigitVal c = some v)
    (hne : s ≠ []) : ∃ n, parseHex s = some n := by
  unfold parseHex
  rw [if_neg (by simpa using hne)]
  exact parseHexAux_some s 0 hhex

theorem parseHexAux_lt : ∀ (s : List Nat) (acc n : Nat),
    parseHexAux acc s = some n → n < (acc + 1) * 16 ^ s.length
  | [], acc, n, h => by
    simp only [parseHexAux, Option.some.injEq] at h
    subst h
    simp
  | c :: t, acc, n, h => by
    simp only [parseHexAux] at h
    cases hv : hexDigitVal c with
    | none => rw [hv] at h; simp at h
    | some v =>
      rw [hv] at h
      have hvlt := hexDigitVal_lt hv
      have := parseHexAux_lt t (16 * acc + v) n h
      have hmono : (16 * acc + v + 1) * 16 ^ t.length ≤ (acc + 1) * 16 ^ (t.length + 1) := by
        rw [pow_succ]
        have h1 : 16 * acc + v + 1 ≤ (acc + 1) * 16 := by omega
        calc (16 * acc + v + 1) * 16 ^ t.length
            ≤ (acc + 1) * 16 * 16 ^ t.length := Nat.mul_le_mul_right _ h1
          _ = (acc + 1) * (16 ^ t.length * 16) := by ring
      simp only [List.length_cons]
      omega

theorem parseHex_lt {s : List Nat} {n : Nat} (h : parseHex s = some n) : n < 16 ^ s.length := by
  unfold parseHex at h
  split at h
  · simp at h
  · have := parseHexAux_lt s 0 n h
    simpa using this

theorem bytesFromHex_some_of_isHex : ∀ s : List Nat,
    (∀ c ∈ s, ∃ v, hexDigitVal c = some v) → s.length % 2 = 0 →
    ∃ bs, bytesFromHex s = some bs
  | [], _, _ => ⟨[], rfl⟩
  | [_], _, h => by simp at h
  | c1 :: c2 :: t, hhex, h => by
    obtain ⟨v1, hv1⟩ := hhex c1 (by simp)
    obtain ⟨v2, hv2⟩ := hhex c2 (by simp)
    obtain ⟨bs, hbs⟩ := bytesFromHex_some_of_isHex t
      (fun x hx => hhex x (by simp [hx])) (by simp at h; omega)
    exact ⟨(16 * v1 + v2) :: bs, by simp only [bytesFromHex, hv1, hv2, hbs]⟩

/-- C2: an advertisement whose 14-byte service blob RC4-decrypts to a
payload whose CRC-16 trailer mismatches the recomputed CRC is not
rejected by `_extract_key_from_advertisement` (the comparison only
logs: `pass  # CRC failed but continue`): as long as the
reconstructed serial number has at least 8 characters, the extraction
still returns the device serial number, a model code, and the base64
key derived from `sn[-6:] || device_guid || SALT_KEY` (the demasked
output is always 22 hex chars here, so the length check passes). -/
theorem C2_theorem (mid : Nat) (mfr_bytes svc_bytes : List Nat)
    (hsvc : 14 ≤ svc_bytes.length)
    (hsvc_lt : ∀ b ∈ svc_bytes, b < 256)
    (hsn : 8 ≤ (advDeviceSn mid mfr_bytes).length)
    (_hcrc_mismatch :
      (crc16 (pyDropLast (pyUpper (bytesToHexLower
          (rc4_crypt (svc_bytes.take 14) (advRc4Key (advDeviceSn mid mfr_bytes))))) 4)).map
            pyUpper
        ≠ some (pyUpper (pyTakeLast (pyUpper (bytesToHexLower
          (rc4_crypt (svc_bytes.take 14) (advRc4Key (advDeviceSn mid mfr_bytes))))) 4))) :
    ∃ device_guid model_code,
      device_guid.length = 6
      ∧ extract_key_from_advertisement mid mfr_bytes svc_bytes
        = some (b64encode (utf8Encode (pyTakeLast (advDeviceSn mid mfr_bytes) 6)
            ++ device_guid ++ utf8Encode SALT_KEY),
            advDeviceSn mid mfr_bytes, model_code) := by
  set sn := advDeviceSn mid mfr_bytes with hsndef
  set dec14 := rc4_crypt (svc_bytes.take 14) (advRc4Key sn) with hdec14
  have hdec14_lt : ∀ b ∈ dec14, b < 256 :=
    rc4_crypt_all _ _ (fun b hb => hsvc_lt b (List.take_subset _ _ hb))
  have hdec14_len : dec14.length = 14 := by
    rw [hdec14, rc4_crypt_length, List.length_take]
    omega
  set dh := pyUpper (bytesToHexLower dec14) with hdh
  have hdh_len : dh.length = 28 := by
    rw [hdh, pyUpper_length, bytesToHexLower_length _ hdec14_lt, hdec14_len]
  have hdh_isHex : ∀ c ∈ dh, ∃ v, hexDigitVal c = some v := upper_btl_isHex hdec14_lt
  set dfc := pyDropLast dh 4 with hdfc
  have hdfc_len : dfc.length = 24 := by
    rw [hdfc, pyDropLast_length, hdh_len]
  have hdfc_sub : ∀ c ∈ dfc, c ∈ dh := fun c hc => List.take_subset _ _ hc
  set xks := pyTakeLast dfc 2 with hxks
  have hxks_len : xks.length = 2 := by
    rw [hxks, pyTakeLast_length _ _ (by omega)]
  obtain ⟨xk, hxk⟩ : ∃ n, parseHex xks = some n :=
    parseHex_some (fun c hc => hdh_isHex c (hdfc_sub c (List.drop_subset _ _ hc)))
      (by intro h; rw [h] at hxks_len; simp at hxks_len)
  have hxk_lt : xk < 256 := by
    have := parseHex_lt hxk
    rw [hxks_len] at this
    omega
  set ph := pyDropLast dfc 2 with hph
  have hph_len : ph.length = 22 := by
    rw [hph, pyDropLast_length, hdfc_len]
  obtain ⟨pb, hpb⟩ : ∃ bs, bytesFromHex ph = some bs :=
    bytesFromHex_some_of_isHex ph
      (fun c hc => hdh_isHex c (hdfc_sub c (List.take_subset _ _ hc)))
      (by rw [hph_len])
  have hpb_len : pb.length = 11 := by
    have := bytesFromHex_length hpb
    omega
  have hpb_lt : ∀ b ∈ pb, b < 256 := bytesFromHex_lt hpb
  set decoded := xor_with_byte pb xk with hdecoded
  have hdecoded_eq : decoded = bytesToHexLower (pb.map (fun b => (b &&& 255) ^^^ xk)) := by
    rw [hdecoded, xor_with_byte_eq]
  have hxored_lt := xor_masked_lt pb xk hxk_lt
  have hdecoded_len : decoded.length = 22 := by
    rw [hdecoded_eq, bytesToHexLower_length _ hxored_lt, List.length_map, hpb_len]
  have hdecoded_isHex : ∀ c ∈ decoded, ∃ v, hexDigitVal c = some v := by
    rw [hdecoded_eq]
    exact btl_isHex hxored_lt
  obtain ⟨mc, hmc⟩ : ∃ n, parseHex (decoded.take 4) = some n :=
    parseHex_some (fun c hc => hdecoded_isHex c (List.take_subset _ _ hc))
      (by
        intro h
        have : (decoded.take 4).length = 0 := by rw [h]; rfl
        rw [List.length_take] at this
        omega)
  obtain ⟨guid, hguid⟩ : ∃ bs, bytesFromHex ((decoded.take 16).drop 4) = some bs :=
    bytesFromHex_some_of_isHex _
      (fun c hc => hdecoded_isHex c (List.take_subset _ _ (List.drop_subset _ _ hc)))
      (by
        rw [List.length_drop, List.length_take]
        omega)
  have hguid_len : guid.length = 6 := by
    have := bytesFromHex_length hguid
    rw [List.length_drop, List.length_take] at this
    omega
  refine ⟨guid, mc, hguid_len, ?_⟩
  simp only [extract_key_from_advertisement, ← hsndef, ← hdec14, ← hdh, ← hdfc, ← hph,
    ← hxks, hxk, hpb, ← hdecoded, hmc, hguid]
  rw [if_neg (by omega), if_neg (by omega), if_neg (by rw [hdh_len]; omega),
    if_neg (by rw [hdfc_len]; omega), if_pos (by rw [hdecoded_len]),
    if_pos (by omega : 6 ≤ sn.length)]

/-- C2 (witness): a concrete advertisement — manufacturer id `0x4A4B`
with payload `"K10DEVICE00123"` giving the 15-character serial
`"JK10DEVICE00123"`, and an all-zero 14-byte service blob whose
decrypted CRC trailer mismatches — still yields a derived key, the
serial number and a model code. -/
theorem C2_witness :
    ∃ device_guid model_code,
      device_guid.length = 6
      ∧ extract_key_from_advertisement 19019 (pystr "K10DEVICE00123") (List.replicate 14 0)
        = some (b64encode (utf8Encode (pyTakeLast
              (advDeviceSn 19019 (pystr "K10DEVICE00123")) 6)
            ++ device_guid ++ utf8Encode SALT_KEY),
            advDeviceSn 19019 (pystr "K10DEVICE00123"), model_code) :=
  C2_theorem 19019 (pystr "K10DEVICE00123") (List.replicate 14 0)
    (by decide) (by decide) (by decide) (by decide)

end PrivateJack
